import Mathlib

/-!
# Order ledger chaincode

A shallow embedding of the two chaincode handlers of the repository,
`start/chaincode_start.go` (namespace `Start`) and `testcc/testcc.go`
(namespace `Testcc`), together with the parts of the Go standard library
and of the ledger stub they call.

* A Go `string` and a Go `[]byte` are lists of bytes (`List Nat`, every
  byte a value below 256).  A `nil` byte slice is `none`.
* A Go `int` is an `Int` between `-2^63` and `2^63 - 1`.
* A Go `error` is the text of its message.
* `fmt.Print*` calls only write to the standard output and are left out.
* The library functions are embedded as their documentation and sources
  describe them: `utf8`, `strconv.Atoi`, `strings.Split`, `strings.ToLower`
  (the Unicode case table of the runes above U+007F is a parameter) and the
  encoder and decoder of `encoding/json` for the two `Order` structs.  The
  encoder writes the short escapes `\n`, `\r`, `\t` and `\u00xx` for the other
  control characters; later releases also shorten `\b` and `\f`, which the
  decoder reads alike.  The decoder follows the library on every JSON text
  but for two limits that no handler can tell apart here: it has no bound on
  the nesting depth, and a `[]string` that a repeated key decodes a second
  time starts from the elements the first decoding left, without the spare
  capacity behind them.
-/

namespace Chaincode

set_option maxRecDepth 100000

/-- A Go string, as its bytes. -/
abbrev GoString := List Nat

/-- A Go byte slice that is not nil. -/
abbrev Bytes := List Nat

/-- A Go error value that is not nil: its message. -/
abbrev GoError := List Nat

/-! ## unicode/utf8 -/

/-- The rune `utf8.RuneError`, U+FFFD. -/
def RuneError : Nat := 0xFFFD

/-- The function `utf8.EncodeRune`: the UTF-8 bytes of a rune; a surrogate or a
value above U+10FFFF is written as U+FFFD. -/
def EncodeRune (r : Nat) : List Nat :=
  if r < 0x80 then [r]
  else if r < 0x800 then [0xC0 + r / 64, 0x80 + r % 64]
  else if 0x10FFFF < r ∨ (0xD800 ≤ r ∧ r ≤ 0xDFFF) then [0xEF, 0xBF, 0xBD]
  else if r < 0x10000 then [0xE0 + r / 4096, 0x80 + r / 64 % 64, 0x80 + r % 64]
  else [0xF0 + r / 262144, 0x80 + r / 4096 % 64, 0x80 + r / 64 % 64, 0x80 + r % 64]

/-- A continuation byte, `0x80 .. 0xBF`. -/
def isCont (b : Nat) : Bool := 0x80 ≤ b && b ≤ 0xBF

/-- The function `utf8.DecodeRuneInString`: the first rune of the string and
the number of bytes it takes; `(RuneError, 1)` on a byte that starts no valid
encoding (overlong forms and surrogates included), `(RuneError, 0)` on the
empty string. -/
def DecodeRune (s : List Nat) : Nat × Nat :=
  match s with
  | [] => (RuneError, 0)
  | b0 :: t =>
    if b0 < 0x80 then (b0, 1)
    else if 0xC2 ≤ b0 ∧ b0 ≤ 0xDF then
      match t with
      | b1 :: _ =>
        if isCont b1 then ((b0 - 0xC0) * 64 + (b1 - 0x80), 2) else (RuneError, 1)
      | _ => (RuneError, 1)
    else if 0xE0 ≤ b0 ∧ b0 ≤ 0xEF then
      match t with
      | b1 :: b2 :: _ =>
        if (if b0 = 0xE0 then 0xA0 else 0x80) ≤ b1 ∧ b1 ≤ (if b0 = 0xED then 0x9F else 0xBF)
            ∧ isCont b2 then
          ((b0 - 0xE0) * 4096 + (b1 - 0x80) * 64 + (b2 - 0x80), 3)
        else (RuneError, 1)
      | _ => (RuneError, 1)
    else if 0xF0 ≤ b0 ∧ b0 ≤ 0xF4 then
      match t with
      | b1 :: b2 :: b3 :: _ =>
        if (if b0 = 0xF0 then 0x90 else 0x80) ≤ b1 ∧ b1 ≤ (if b0 = 0xF4 then 0x8F else 0xBF)
            ∧ isCont b2 ∧ isCont b3 then
          ((b0 - 0xF0) * 262144 + (b1 - 0x80) * 4096 + (b2 - 0x80) * 64 + (b3 - 0x80), 4)
        else (RuneError, 1)
      | _ => (RuneError, 1)
    else (RuneError, 1)

/-- The loop `for _, c := range s` over a string, with `fuel` steps: every rune
with the bytes it was read from. An invalid byte gives `(RuneError, [b])`. -/
def runesAux : Nat → List Nat → List (Nat × List Nat)
  | 0, _ => []
  | _ + 1, [] => []
  | fuel + 1, b :: t =>
    let d := DecodeRune (b :: t)
    (d.1, (b :: t).take d.2) :: runesAux fuel ((b :: t).drop d.2)

/-- The runes of a string with the bytes each was read from. Every step takes
at least one byte, so the length of the string is enough fuel. -/
def runes (s : GoString) : List (Nat × List Nat) := runesAux s.length s

/-- The function `utf8.ValidString`: no byte of the string is invalid. -/
def ValidString (s : GoString) : Bool :=
  (runes s).all fun c => !(c.1 == RuneError && c.2.length == 1)

/-- The string with every invalid byte replaced by the encoding of U+FFFD
as `strings.ToValidUTF8` does byte by byte. -/
def coerceUTF8 (s : GoString) : GoString := (runes s).flatMap fun c => EncodeRune c.1

/-- The bytes of a text constant: the UTF-8 encoding of its characters. -/
def lit (s : String) : GoString := s.data.flatMap fun c => EncodeRune c.toNat

/-! ## strings and strconv -/

/-- The function `unicode.ToLower` on one rune. Below U+0080 it is the ASCII
rule of the library; the case table of the other runes is the parameter
`table`. -/
def lowerRune (table : Nat → Nat) (r : Nat) : Nat :=
  if r < 0x80 then (if 0x41 ≤ r ∧ r ≤ 0x5A then r + 0x20 else r) else table r

/-- The function `strings.ToLower`, that is `strings.Map(unicode.ToLower, s)`:
every rune of the string is mapped and written back in UTF-8. -/
def ToLower (table : Nat → Nat) (s : GoString) : GoString :=
  (runes s).flatMap fun c => EncodeRune (lowerRune table c.1)

/-- The function `strings.Split(s, sep)` for a separator of one byte, the only
use the handlers make of it (`sep = ","`): the pieces between the
occurrences of the separator; the result is never empty. -/
def Split (s : GoString) (sep : Nat) : List GoString :=
  match s with
  | [] => [[]]
  | b :: t =>
    if b = sep then [] :: Split t sep
    else
      match Split t sep with
      | [] => [[b]]
      | piece :: rest => (b :: piece) :: rest

/-- The two kinds of `*strconv.NumError`. -/
inductive NumError where
  | ErrSyntax
  | ErrRange
  deriving DecidableEq, Repr

/-- The largest `uint64`. -/
def maxUint64 : Nat := 2 ^ 64 - 1

/-- The digit loop of `strconv.ParseUint(s, 10, 64)`, `n` being the value read
so far: a byte that is no decimal digit is a syntax error with value 0, an
overflow is a range error with the largest value, found in the order the bytes
come. -/
def parseUintLoop : List Nat → Nat → Nat × Option NumError
  | [], n => (n, none)
  | c :: t, n =>
    if 0x30 ≤ c ∧ c ≤ 0x39 then
      if n ≥ maxUint64 / 10 + 1 then (maxUint64, some .ErrRange)
      else if n * 10 + (c - 0x30) > maxUint64 then (maxUint64, some .ErrRange)
      else parseUintLoop t (n * 10 + (c - 0x30))
    else (0, some .ErrSyntax)

/-- The function `strconv.ParseUint(s, 10, 64)`. -/
def ParseUint (s : GoString) : Nat × Option NumError :=
  match s with
  | [] => (0, some .ErrSyntax)
  | _ => parseUintLoop s 0

/-- The function `strconv.ParseInt(s, 10, 64)`: an optional sign and decimal
digits; a value out of range is clamped and comes with a range error. -/
def ParseInt (s : GoString) : Int × Option NumError :=
  match s with
  | [] => (0, some .ErrSyntax)
  | c :: t =>
    match ParseUint (if c = 0x2B ∨ c = 0x2D then t else s) with
    | (_, some .ErrSyntax) => (0, some .ErrSyntax)
    | (un, _) =>
      if c ≠ 0x2D ∧ un ≥ 2 ^ 63 then (2 ^ 63 - 1, some .ErrRange)
      else if c = 0x2D ∧ un > 2 ^ 63 then (-(2 ^ 63), some .ErrRange)
      else (if c = 0x2D then -(un : Int) else (un : Int), none)

/-- The function `strconv.Atoi` where `int` has 64 bits: `ParseInt(s, 10, 0)`
(its fast path for short strings gives the same results). -/
def Atoi (s : GoString) : Int × Option NumError := ParseInt s

/-! ## The ledger stub -/

/-- The state accessor `shim.ChaincodeStubInterface` the host hands to every
call: the world state `state` (an absent key reads as nil) and, for each
accessor, the error it answers with (`none`: it succeeds). -/
structure Stub where
  state : GoString → Option Bytes
  putErr : GoString → Bytes → Option GoError
  getErr : GoString → Option GoError
  delErr : GoString → Option GoError

/-- The stub with the world state changed at one key (`none`: the key is
absent). -/
def Stub.set (stub : Stub) (key : GoString) (value : Option Bytes) : Stub :=
  { stub with state := fun k => if k = key then value else stub.state k }

/-- The call `stub.PutState(key, value)`: the stub afterwards and the error. A
failed write changes nothing. -/
def Stub.PutState (stub : Stub) (key : GoString) (value : Bytes) : Stub × Option GoError :=
  match stub.putErr key value with
  | some e => (stub, some e)
  | none => (stub.set key (some value), none)

/-- The call `stub.GetState(key)`: the bytes under the key (nil when absent)
and the error. -/
def Stub.GetState (stub : Stub) (key : GoString) : Option Bytes × Option GoError :=
  match stub.getErr key with
  | some e => (none, some e)
  | none => (stub.state key, none)

/-- The call `stub.DelState(key)`: the stub afterwards and the error. A failed
delete changes nothing. -/
def Stub.DelState (stub : Stub) (key : GoString) : Stub × Option GoError :=
  match stub.delErr key with
  | some e => (stub, some e)
  | none => (stub.set key none, none)

/-- Every accessor of the stub succeeds. -/
def Stub.Succeeds (stub : Stub) : Prop :=
  (∀ k v, stub.putErr k v = none) ∧ (∀ k, stub.getErr k = none) ∧ (∀ k, stub.delErr k = none)

/-- A stub over the given world state whose accessors all succeed. -/
def Stub.ok (state : GoString → Option Bytes) : Stub :=
  { state := state, putErr := fun _ _ => none, getErr := fun _ => none, delErr := fun _ => none }

/-- The ledger that holds nothing. -/
def emptyState : GoString → Option Bytes := fun _ => none

/-- How a call of a handler ends: it returns `(out, err)` or it panics (an
index out of range); either way with the stub as the call left it. -/
inductive Outcome where
  | returned (out : Option Bytes) (err : Option GoError) (stub : Stub)
  | panicked (stub : Stub)

/-- The stub as the call left it. -/
def Outcome.stub : Outcome → Stub
  | .returned _ _ s => s
  | .panicked s => s

/-! ## encoding/json: writing -/

/-- A digit of `"0123456789abcdef"`. -/
def hexDigit (n : Nat) : Nat := if n < 10 then 0x30 + n else 0x57 + n

/-- What the string encoder of `encoding/json` writes for one rune `c.1` read
from the bytes `c.2`: the byte itself for printable ASCII other than the
quote, the backslash and the HTML characters, a short or `\u00xx` escape for
the other ASCII bytes, `\ufffd` for an invalid byte, an escape for U+2028 and
U+2029, and the bytes as they are otherwise. -/
def escapeRune (c : Nat × List Nat) : List Nat :=
  if c.1 < 0x80 then
    if 0x20 ≤ c.1 ∧ c.1 ≠ 0x5C ∧ c.1 ≠ 0x22 ∧ c.1 ≠ 0x3C ∧ c.1 ≠ 0x3E ∧ c.1 ≠ 0x26 then [c.1]
    else if c.1 = 0x5C ∨ c.1 = 0x22 then [0x5C, c.1]
    else if c.1 = 0x0A then [0x5C, 0x6E]
    else if c.1 = 0x0D then [0x5C, 0x72]
    else if c.1 = 0x09 then [0x5C, 0x74]
    else [0x5C, 0x75, 0x30, 0x30, hexDigit (c.1 / 16), hexDigit (c.1 % 16)]
  else if c.1 = RuneError ∧ c.2.length = 1 then [0x5C, 0x75, 0x66, 0x66, 0x66, 0x64]
  else if c.1 = 0x2028 ∨ c.1 = 0x2029 then [0x5C, 0x75, 0x32, 0x30, 0x32, hexDigit (c.1 % 16)]
  else c.2

/-- A Go string as a JSON string: the escaped runes between two quotes. -/
def encodeString (s : GoString) : List Nat :=
  0x22 :: ((runes s).flatMap escapeRune ++ [0x22])

/-- The elements of a string slice as JSON strings with commas between. -/
def encodeStrings : List GoString → List Nat
  | [] => []
  | [s] => encodeString s
  | s :: rest => encodeString s ++ 0x2C :: encodeStrings rest

/-- A `[]string` as JSON: `null` for the nil slice, an array otherwise. -/
def encodeSlice : Option (List GoString) → List Nat
  | none => lit "null"
  | some l => 0x5B :: (encodeStrings l ++ [0x5D])

/-- The decimal digits of `n` written before `acc`, most significant first. -/
def digitsAux : Nat → Nat → List Nat → List Nat
  | 0, _, acc => acc
  | fuel + 1, n, acc =>
    if n < 10 then (0x30 + n) :: acc else digitsAux fuel (n / 10) ((0x30 + n % 10) :: acc)

/-- The decimal form of a natural number. -/
def formatNat (n : Nat) : List Nat := digitsAux (n + 1) n []

/-- The function `strconv.FormatInt(i, 10)`, by which a Go `int` is written. -/
def FormatInt (i : Int) : List Nat :=
  if i < 0 then 0x2D :: formatNat i.natAbs else formatNat i.natAbs

/-! ## encoding/json: reading -/

/-- A parsed JSON text. A number keeps its text. -/
inductive JSON where
  | null
  | bool (b : Bool)
  | number (text : List Nat)
  | string (s : GoString)
  | array (elems : List JSON)
  | object (members : List (GoString × JSON))

/-- The input after its leading blanks (space, tab, line feed, carriage return). -/
def skipWS : List Nat → List Nat
  | [] => []
  | c :: t => if c = 0x20 ∨ c = 0x09 ∨ c = 0x0A ∨ c = 0x0D then skipWS t else c :: t

/-- The value of a hexadecimal digit. -/
def hexVal (c : Nat) : Option Nat :=
  if 0x30 ≤ c ∧ c ≤ 0x39 then some (c - 0x30)
  else if 0x61 ≤ c ∧ c ≤ 0x66 then some (c - 0x57)
  else if 0x41 ≤ c ∧ c ≤ 0x46 then some (c - 0x37)
  else none

/-- The four hexadecimal digits of a `\u` escape (`getu4` without the two
leading bytes). -/
def hex4 (a b c d : Nat) : Option Nat :=
  match hexVal a, hexVal b, hexVal c, hexVal d with
  | some x, some y, some z, some w => some (x * 4096 + y * 256 + z * 16 + w)
  | _, _, _, _ => none

/-- The rune after a `\u` escape of value `r1` and the input left: a high
surrogate followed by the escape of a low one gives the rune of the pair and
takes both, any other surrogate gives U+FFFD. -/
def unescapeU (r1 : Nat) (rest : List Nat) : Nat × List Nat :=
  if 0xD800 ≤ r1 ∧ r1 < 0xE000 then
    match rest with
    | 0x5C :: 0x75 :: a :: b :: c :: d :: rest2 =>
      match hex4 a b c d with
      | some r2 =>
        if r1 < 0xDC00 ∧ 0xDC00 ≤ r2 ∧ r2 < 0xE000 then
          ((r1 - 0xD800) * 1024 + (r2 - 0xDC00) + 0x10000, rest2)
        else (RuneError, rest)
      | none => (RuneError, rest)
    | _ => (RuneError, rest)
  else (r1, rest)

/-- The body of a JSON string, after its opening quote (`unquote`): the Go
string it stands for, `acc` being what was read so far, and the input after
the closing quote. Invalid UTF-8 is read as U+FFFD; a control character, a bad
escape or a missing quote is an error. -/
def parseStringBody : Nat → List Nat → GoString → Option (GoString × List Nat)
  | 0, _, _ => none
  | _ + 1, [], _ => none
  | fuel + 1, c :: t, acc =>
    if c = 0x22 then some (acc, t)
    else if c = 0x5C then
      match t with
      | [] => none
      | e :: t2 =>
        if e = 0x22 ∨ e = 0x5C ∨ e = 0x2F then parseStringBody fuel t2 (acc ++ [e])
        else if e = 0x62 then parseStringBody fuel t2 (acc ++ [0x08])
        else if e = 0x66 then parseStringBody fuel t2 (acc ++ [0x0C])
        else if e = 0x6E then parseStringBody fuel t2 (acc ++ [0x0A])
        else if e = 0x72 then parseStringBody fuel t2 (acc ++ [0x0D])
        else if e = 0x74 then parseStringBody fuel t2 (acc ++ [0x09])
        else if e = 0x75 then
          match t2 with
          | a :: b :: c2 :: d :: t3 =>
            match hex4 a b c2 d with
            | some r1 =>
              parseStringBody fuel (unescapeU r1 t3).2 (acc ++ EncodeRune (unescapeU r1 t3).1)
            | none => none
          | _ => none
        else none
    else if c < 0x20 then none
    else if c < 0x80 then parseStringBody fuel t (acc ++ [c])
    else
      parseStringBody fuel ((c :: t).drop (DecodeRune (c :: t)).2)
        (acc ++ EncodeRune (DecodeRune (c :: t)).1)

/-- The longest run of decimal digits at the head of the input, and the rest. -/
def takeDigits : List Nat → List Nat × List Nat
  | [] => ([], [])
  | c :: t =>
    if 0x30 ≤ c ∧ c ≤ 0x39 then ((c :: (takeDigits t).1), (takeDigits t).2) else ([], c :: t)

/-- The exponent of a JSON number, if there is one. -/
def parseExponent (text s : List Nat) : Option (List Nat × List Nat) :=
  match s with
  | e :: t =>
    if e = 0x65 ∨ e = 0x45 then
      match t with
      | sg :: t2 =>
        if sg = 0x2B ∨ sg = 0x2D then
          (if (takeDigits t2).1 = [] then none
           else some (text ++ e :: sg :: (takeDigits t2).1, (takeDigits t2).2))
        else
          (if (takeDigits t).1 = [] then none
           else some (text ++ e :: (takeDigits t).1, (takeDigits t).2))
      | [] => none
    else some (text, s)
  | [] => some (text, s)

/-- The fraction and the exponent of a JSON number, if there are any. -/
def parseFraction (text s : List Nat) : Option (List Nat × List Nat) :=
  match s with
  | c :: t =>
    if c = 0x2E then
      (if (takeDigits t).1 = [] then none
       else parseExponent (text ++ 0x2E :: (takeDigits t).1) (takeDigits t).2)
    else parseExponent text s
  | [] => parseExponent text s

/-- The digits of a JSON number after its sign `sign`: a single `0` or a run of
digits that starts with another digit; then the fraction and the exponent. -/
def parseUnsigned (sign s : List Nat) : Option (List Nat × List Nat) :=
  match s with
  | c :: t =>
    if c = 0x30 then parseFraction (sign ++ [0x30]) t
    else if 0x31 ≤ c ∧ c ≤ 0x39 then
      parseFraction (sign ++ c :: (takeDigits t).1) (takeDigits t).2
    else none
  | [] => none

/-- A JSON number: its text and the input after it. -/
def parseNumber (s : List Nat) : Option (List Nat × List Nat) :=
  match s with
  | c :: t => if c = 0x2D then parseUnsigned [0x2D] t else parseUnsigned [] s
  | [] => none

/-- The elements of an array after the first bracket or a comma, read with
`pv`; `acc` holds the elements read so far. -/
def parseElems (pv : List Nat → Option (JSON × List Nat)) :
    Nat → List Nat → List JSON → Option (List JSON × List Nat)
  | 0, _, _ => none
  | fuel + 1, s, acc =>
    match pv s with
    | none => none
    | some (v, rest) =>
      match skipWS rest with
      | 0x2C :: t => parseElems pv fuel t (acc ++ [v])
      | 0x5D :: t => some (acc ++ [v], t)
      | _ => none

/-- The members of an object after the first brace or a comma, the values read
with `pv`; `acc` holds the members read so far. -/
def parseMembers (pv : List Nat → Option (JSON × List Nat)) :
    Nat → List Nat → List (GoString × JSON) → Option (List (GoString × JSON) × List Nat)
  | 0, _, _ => none
  | fuel + 1, s, acc =>
    match skipWS s with
    | 0x22 :: t =>
      match parseStringBody t.length t [] with
      | none => none
      | some (key, rest) =>
        match skipWS rest with
        | 0x3A :: t2 =>
          match pv t2 with
          | none => none
          | some (v, rest2) =>
            match skipWS rest2 with
            | 0x2C :: t3 => parseMembers pv fuel t3 (acc ++ [(key, v)])
            | 0x7D :: t3 => some (acc ++ [(key, v)], t3)
            | _ => none
        | _ => none
    | _ => none

/-- A JSON value at the head of the input, blanks before it skipped, and the
input after it; `fuel` bounds the nesting. -/
def parseValue : Nat → List Nat → Option (JSON × List Nat)
  | 0, _ => none
  | fuel + 1, s =>
    match skipWS s with
    | [] => none
    | c :: t =>
      if c = 0x7B then
        match skipWS t with
        | 0x7D :: t2 => some (.object [], t2)
        | _ =>
          match parseMembers (fun x => parseValue fuel x) t.length t [] with
          | some (ms, rest) => some (.object ms, rest)
          | none => none
      else if c = 0x5B then
        match skipWS t with
        | 0x5D :: t2 => some (.array [], t2)
        | _ =>
          match parseElems (fun x => parseValue fuel x) t.length t [] with
          | some (es, rest) => some (.array es, rest)
          | none => none
      else if c = 0x22 then
        match parseStringBody t.length t [] with
        | some (str, rest) => some (.string str, rest)
        | none => none
      else if c = 0x2D ∨ (0x30 ≤ c ∧ c ≤ 0x39) then
        match parseNumber (c :: t) with
        | some (text, rest) => some (.number text, rest)
        | none => none
      else
        match c :: t with
        | 0x74 :: 0x72 :: 0x75 :: 0x65 :: rest => some (.bool true, rest)
        | 0x66 :: 0x61 :: 0x6C :: 0x73 :: 0x65 :: rest => some (.bool false, rest)
        | 0x6E :: 0x75 :: 0x6C :: 0x6C :: rest => some (.null, rest)
        | _ => none

/-- The JSON value a whole input holds (`checkValid`): one value with blanks
around it and nothing else. Every level of nesting takes a byte, so the length
of the input is enough fuel. -/
def parseJSON (data : List Nat) : Option JSON :=
  match parseValue (data.length + 1) data with
  | some (v, rest) => if skipWS rest = [] then some v else none
  | none => none

/-- The byte `b & caseMask`, the byte without its bit `0x20`. -/
def caseMasked (b : Nat) : Nat := b - (b / 32 % 2) * 32

/-- The folding match of the decoder between a field name `name` (ASCII) and
an object key (`equalFoldRight`): ASCII letters match without regard to case,
and U+017F and U+212A in the key match `s` and `k` of the name. -/
def equalFold (name key : List Nat) : Bool :=
  match name with
  | [] => key.isEmpty
  | sb :: name2 =>
    match key with
    | [] => false
    | tb :: key2 =>
      if tb < 0x80 then
        if sb = tb then equalFold name2 key2
        else if 0x41 ≤ caseMasked sb ∧ caseMasked sb ≤ 0x5A ∧ caseMasked sb = caseMasked tb then
          equalFold name2 key2
        else false
      else if (sb = 0x73 ∨ sb = 0x53) ∧ (DecodeRune key).1 = 0x17F then
        equalFold name2 (key.drop (DecodeRune key).2)
      else if (sb = 0x6B ∨ sb = 0x4B) ∧ (DecodeRune key).1 = 0x212A then
        equalFold name2 (key.drop (DecodeRune key).2)
      else false

/-- The array elements read into a `[]string` whose elements were `old`
(empty for a fresh slice): a string is stored, `null` leaves the element as it
was, any other value leaves it too and is a type error (the flag). -/
def decodeElems : List JSON → List GoString → List GoString × Bool
  | [], _ => ([], false)
  | .string str :: es, old => (str :: (decodeElems es old.tail).1, (decodeElems es old.tail).2)
  | .null :: es, old => (old.headD [] :: (decodeElems es old.tail).1, (decodeElems es old.tail).2)
  | _ :: es, old => (old.headD [] :: (decodeElems es old.tail).1, true)

/-! ## start/chaincode_start.go -/

namespace Start

/-- The type `OrderStatus`, an `int`. -/
abbrev OrderStatus := Int

/-- The status `Issued`. -/
def Issued : OrderStatus := 0

/-- The status `Shipped`. -/
def Shipped : OrderStatus := 1

/-- The status `ArrivedToPO`. -/
def ArrivedToPO : OrderStatus := 2

/-- The status `Finished`. -/
def Finished : OrderStatus := 3

/-- The struct `Order` of this file. Its four fields are unexported (their
names start with a lower-case letter). -/
structure Order where
  id : Int
  itemsId : Option (List GoString)
  customerId : Int
  status : OrderStatus
  deriving DecidableEq

/-- The zero value `var order Order`. -/
def Order.zero : Order := { id := 0, itemsId := none, customerId := 0, status := 0 }

/-- The call `json.Marshal(order)` on this `Order`: `encoding/json` writes
exported fields only, and the struct has none, so the text is the empty
object whatever the order holds. -/
def Marshal (_order : Order) : Bytes × Option GoError := (lit "\x7b\x7d", none)

/-- The call `json.Unmarshal(data, &order)` on this `Order`: no key of the text
has an exported field to go to, so the order stays as it was; the flag tells
an error (a text that is no JSON, or a value other than an object or `null`). -/
def Unmarshal (data : Option Bytes) (order : Order) : Order × Bool :=
  match parseJSON (data.getD []) with
  | some (.object _) => (order, false)
  | some .null => (order, false)
  | _ => (order, true)

/-- The method `Init`. -/
def Init (stub : Stub) (_function : GoString) (args : List GoString) : Outcome :=
  if args.length ≠ 1 then
    .returned none (some (lit "Incorrect number of arguments. Expecting 1")) stub
  else
    match args[0]? with
    | none => .panicked stub
    | some a0 =>
      match stub.PutState (lit "hello_world") a0 with
      | (stub1, some err) => .returned none (some err) stub1
      | (stub1, none) => .returned none none stub1

/-- The method `write`. After the check that there are two arguments it reads
`args[0]`, `args[1]` and `args[2]`; a missing one is an index out of range. The
errors of `Atoi` and of `Marshal` are overwritten unread. -/
def write (stub : Stub) (args : List GoString) : Outcome :=
  if args.length ≠ 2 then
    .returned none
      (some (lit "Incorrect number of arguments. Expecting 2. name of the key and value to set"))
      stub
  else
    match args[0]? with
    | none => .panicked stub
    | some id =>
      match args[1]? with
      | none => .panicked stub
      | some a1 =>
        match args[2]? with
        | none => .panicked stub
        | some a2 =>
          match stub.PutState id
              (Marshal { Order.zero with
                id := (Atoi id).1, itemsId := some (Split a1 0x2C),
                customerId := (Atoi a2).1, status := Issued }).1 with
          | (stub1, some err) => .returned none (some err) stub1
          | (stub1, none) => .returned none none stub1

/-- The method `delete`. -/
def delete (stub : Stub) (args : List GoString) : Outcome :=
  if args.length ≠ 1 then
    .returned none (some (lit "Incorrect number of arguments. Expecting 3")) stub
  else
    match args[0]? with
    | none => .panicked stub
    | some key =>
      match stub.DelState key with
      | (stub1, some _) => .returned none (some (lit "Failed to delete state")) stub1
      | (stub1, none) => .returned none none stub1

/-- The method `Invoke`. -/
def Invoke (stub : Stub) (function : GoString) (args : List GoString) : Outcome :=
  if function = lit "delete" then delete stub args
  else if function = lit "write" then write stub args
  else .returned none (some (lit "Received unknown function invocation: " ++ function)) stub

/-- The text `jsonResp` that `Query` builds and prints on success. -/
def queryResponse (id : GoString) (order : Bytes) : GoString :=
  lit "\x7b\"Name\":\"" ++ id ++ lit "\",\"Order\":\"" ++ order ++ lit "\"\x7d"

/-- The method `Query`. The text `queryResponse` it builds on success is only
printed; the bytes returned are those read from the ledger. -/
def Query (stub : Stub) (function : GoString) (args : List GoString) : Outcome :=
  if function ≠ lit "query" then
    .returned none (some (lit "Invalid query function name. Expecting \"query\"")) stub
  else if args.length ≠ 1 then
    .returned none
      (some (lit "Incorrect number of arguments. Expecting name of the person to query")) stub
  else
    match args[0]? with
    | none => .panicked stub
    | some id =>
      match stub.GetState id with
      | (_, some _) =>
        .returned none (some (lit "\x7b\"Error\":\"Failed to get state for " ++ id ++ lit "\"\x7d"))
          stub
      | (none, none) =>
        .returned none (some (lit "\x7b\"Error\":\"Nil amount for " ++ id ++ lit "\"\x7d")) stub
      | (some order, none) => .returned (some order) none stub

end Start

/-! ## testcc/testcc.go -/

namespace Testcc

/-- The struct `Order` of this file; all four fields are exported. -/
structure Order where
  Id : Int
  ItemsId : Option (List GoString)
  CustomerId : GoString
  Status : GoString
  deriving DecidableEq

/-- The zero value `var order Order`. -/
def Order.zero : Order := { Id := 0, ItemsId := none, CustomerId := [], Status := [] }

/-- The call `json.Marshal(order)`: the object of the four fields in the order
of the struct. It has no error for a value of this type. -/
def Marshal (order : Order) : Bytes × Option GoError :=
  (lit "\x7b\"Id\":" ++ FormatInt order.Id
    ++ lit ",\"ItemsId\":" ++ encodeSlice order.ItemsId
    ++ lit ",\"CustomerId\":" ++ encodeString order.CustomerId
    ++ lit ",\"Status\":" ++ encodeString order.Status ++ lit "\x7d", none)

/-- The fields of `Order`. -/
inductive Field where
  | Id
  | ItemsId
  | CustomerId
  | Status
  deriving DecidableEq

/-- The field an object key goes to: the field of that very name, else the
first field whose name matches the key by `equalFold`, else none (the value
is skipped). -/
def fieldOf (key : GoString) : Option Field :=
  if key = lit "Id" then some .Id
  else if key = lit "ItemsId" then some .ItemsId
  else if key = lit "CustomerId" then some .CustomerId
  else if key = lit "Status" then some .Status
  else if equalFold (lit "Id") key then some .Id
  else if equalFold (lit "ItemsId") key then some .ItemsId
  else if equalFold (lit "CustomerId") key then some .CustomerId
  else if equalFold (lit "Status") key then some .Status
  else none

/-- A JSON value stored into a field: the order afterwards and whether the
value was of the wrong type (the field is then left as it was). `null` empties
the slice and leaves the other fields. An `int` takes a number that
`ParseInt` reads. -/
def storeField (order : Order) (f : Field) (v : JSON) : Order × Bool :=
  match f, v with
  | .Id, .number text =>
    match ParseInt text with
    | (n, none) => ({ order with Id := n }, false)
    | (_, some _) => (order, true)
  | .Id, .null => (order, false)
  | .Id, _ => (order, true)
  | .ItemsId, .array elems =>
    ({ order with ItemsId := some (decodeElems elems (order.ItemsId.getD [])).1 },
      (decodeElems elems (order.ItemsId.getD [])).2)
  | .ItemsId, .null => ({ order with ItemsId := none }, false)
  | .ItemsId, _ => (order, true)
  | .CustomerId, .string str => ({ order with CustomerId := str }, false)
  | .CustomerId, .null => (order, false)
  | .CustomerId, _ => (order, true)
  | .Status, .string str => ({ order with Status := str }, false)
  | .Status, .null => (order, false)
  | .Status, _ => (order, true)

/-- The members of an object stored one after the other; the flag tells a
type error among them. -/
def decodeMembers : List (GoString × JSON) → Order → Order × Bool
  | [], order => (order, false)
  | (key, v) :: ms, order =>
    match fieldOf key with
    | none => decodeMembers ms order
    | some f =>
      ((decodeMembers ms (storeField order f v).1).1,
        (storeField order f v).2 || (decodeMembers ms (storeField order f v).1).2)

/-- The call `json.Unmarshal(data, &order)`: the order afterwards and whether
the error is not nil. A text that is no JSON (the empty input of a nil slice
too) leaves the order as it was. -/
def Unmarshal (data : Option Bytes) (order : Order) : Order × Bool :=
  match parseJSON (data.getD []) with
  | none => (order, true)
  | some (.object ms) => decodeMembers ms order
  | some .null => (order, false)
  | some _ => (order, true)

/-- The method `Init`. -/
def Init (stub : Stub) (_function : GoString) (args : List GoString) : Outcome :=
  if args.length ≠ 1 then
    .returned none (some (lit "Incorrect number of arguments. Expecting 1")) stub
  else
    match args[0]? with
    | none => .panicked stub
    | some a0 =>
      match stub.PutState (lit "hello_world") a0 with
      | (stub1, some err) => .returned none (some err) stub1
      | (stub1, none) => .returned none none stub1

/-- The method `SubmitOrder`. The error of `Atoi` is overwritten unread: the
order gets the value `Atoi` returns with it. -/
def SubmitOrder (stub : Stub) (args : List GoString) : Outcome :=
  if args.length ≠ 3 then
    .returned none
      (some (lit "Incorrect number of arguments. Expecting 3. name of the key and value to set"))
      stub
  else
    match args[0]?, args[1]?, args[2]? with
    | some id, some a1, some a2 =>
      match Marshal { Order.zero with
          Id := (Atoi id).1, ItemsId := some (Split a1 0x2C),
          CustomerId := a2, Status := lit "Issued" } with
      | (_, some err) => .returned none (some err) stub
      | (orderBytes, none) =>
        match stub.PutState id orderBytes with
        | (stub1, some err) => .returned none (some err) stub1
        | (stub1, none) => .returned none none stub1
    | _, _, _ => .panicked stub

/-- The method `EditOrder`. The error of `Unmarshal` is overwritten unread: the
order is whatever the decoder left in the zero value. -/
def EditOrder (stub : Stub) (args : List GoString) : Outcome :=
  if args.length ≠ 2 then
    .returned none
      (some (lit "Incorrect number of arguments. Expecting 2. name of the key and value to set"))
      stub
  else
    match args[0]?, args[1]? with
    | some id, some a1 =>
      match stub.GetState id with
      | (_, some _) =>
        .returned none (some (lit "\x7b\"Error\":\"Failed to get state for " ++ id ++ lit "\"\x7d"))
          stub
      | (orderBytes, none) =>
        match Marshal { (Unmarshal orderBytes Order.zero).1 with
            ItemsId := some (Split a1 0x2C) } with
        | (_, some err) => .returned none (some err) stub
        | (newBytes, none) =>
          match stub.PutState id newBytes with
          | (stub1, some err) => .returned none (some err) stub1
          | (stub1, none) => .returned none none stub1
    | _, _ => .panicked stub

/-- The method `ChangeStatus`. The error of `Unmarshal` is overwritten unread. -/
def ChangeStatus (stub : Stub) (args : List GoString) : Outcome :=
  if args.length ≠ 2 then
    .returned none
      (some (lit "Incorrect number of arguments. Expecting 2. name of the key and value to set"))
      stub
  else
    match args[0]?, args[1]? with
    | some id, some a1 =>
      match stub.GetState id with
      | (_, some _) =>
        .returned none (some (lit "\x7b\"Error\":\"Failed to get state for " ++ id ++ lit "\"\x7d"))
          stub
      | (orderBytes, none) =>
        match Marshal { (Unmarshal orderBytes Order.zero).1 with Status := a1 } with
        | (_, some err) => .returned none (some err) stub
        | (newBytes, none) =>
          match stub.PutState id newBytes with
          | (stub1, some err) => .returned none (some err) stub1
          | (stub1, none) => .returned none none stub1
    | _, _ => .panicked stub

/-- The method `CancelOrder`. -/
def CancelOrder (stub : Stub) (args : List GoString) : Outcome :=
  if args.length ≠ 1 then
    .returned none (some (lit "Incorrect number of arguments. Expecting 1")) stub
  else
    match args[0]? with
    | none => .panicked stub
    | some key =>
      match stub.DelState key with
      | (stub1, some _) => .returned none (some (lit "Failed to delete state")) stub1
      | (stub1, none) => .returned none none stub1

/-- The method `Invoke`: the function name is put in lower case first, and it
is the lower-case name that is matched and that the error of an unknown
function shows. `table` is the case table of `strings.ToLower`. -/
def Invoke (table : Nat → Nat) (stub : Stub) (function : GoString) (args : List GoString) :
    Outcome :=
  if ToLower table function = lit "cancelorder" then CancelOrder stub args
  else if ToLower table function = lit "submitorder" then SubmitOrder stub args
  else if ToLower table function = lit "changestatus" then ChangeStatus stub args
  else if ToLower table function = lit "editorder" then EditOrder stub args
  else
    .returned none
      (some (lit "Received unknown function invocation: " ++ ToLower table function)) stub

/-- The text `jsonResp` that `Query` builds and prints on success. -/
def queryResponse (id : GoString) (order : Order) : GoString :=
  lit "\x7b\"Name\":\"" ++ id ++ lit "\",\"Customer Id\":\"" ++ order.CustomerId ++ lit "\"\x7d"

/-- The method `Query`. The order decoded from the bytes (the error of
`Unmarshal` unread) only goes into the printed text `queryResponse`; the bytes
returned are those read from the ledger, nil for an absent key. -/
def Query (stub : Stub) (function : GoString) (args : List GoString) : Outcome :=
  if function ≠ lit "query" then
    .returned none (some (lit "Invalid query function name. Expecting \"query\"")) stub
  else if args.length ≠ 1 then
    .returned none
      (some (lit "Incorrect number of arguments. Expecting name of the person to query")) stub
  else
    match args[0]? with
    | none => .panicked stub
    | some id =>
      match stub.GetState id with
      | (_, some _) =>
        .returned none (some (lit "\x7b\"Error\":\"Failed to get state for " ++ id ++ lit "\"\x7d"))
          stub
      | (orderBytes, none) => .returned orderBytes none stub

end Testcc

/-! ## Notions the statements use -/

/-- The call returned with no error. -/
def Outcome.noError : Outcome → Bool
  | .returned _ none _ => true
  | .returned _ (some _) _ => false
  | .panicked _ => false

/-- The outcome `out` is the failure of a wrong argument count on `stub`: no
result bytes, an error whose message begins `Incorrect number of arguments`,
and the stub as it was. -/
def WrongCount (out : Outcome) (stub : Stub) : Prop :=
  ∃ msg, out = .returned none (some msg) stub ∧ lit "Incorrect number of arguments" <+: msg

/-- A stub whose reads fail while its writes and deletes succeed. -/
def unreadableStub : Stub :=
  { state := fun k => if k = lit "1" then some (lit "x") else none,
    putErr := fun _ _ => none,
    getErr := fun _ => some (lit "ledger unavailable"),
    delErr := fun _ => none }

/-- The encoded order of the scenario of the specification, as `submitorder`
stores it. -/
def sampleOrderBytes : Bytes :=
  lit "\x7b\"Id\":1,\"ItemsId\":[\"a\",\"b\",\"c\"],\"CustomerId\":\"42\",\"Status\":\"Issued\"\x7d"

/-- A ledger that holds `sampleOrderBytes` under the key `1` and nothing else. -/
def sampleState : GoString → Option Bytes :=
  fun k => if k = lit "1" then some sampleOrderBytes else none

/-- The JSON value the decoder reads back from an encoded `[]string`. -/
def sliceJSON : Option (List GoString) → JSON
  | none => .null
  | some l => .array (l.map fun s => .string (coerceUTF8 s))

/-- A value of the Go type `int` (64 bits). -/
def IsInt (i : Int) : Prop := -(2 ^ 63) ≤ i ∧ i < 2 ^ 63

/-- The order with every string coerced to valid UTF-8, as the encoder of
`encoding/json` writes it. -/
def Testcc.Order.coerced (o : Testcc.Order) : Testcc.Order :=
  { Id := o.Id, ItemsId := o.ItemsId.map (List.map coerceUTF8),
    CustomerId := coerceUTF8 o.CustomerId, Status := coerceUTF8 o.Status }

/-- Every string of the order is valid UTF-8. -/
def Testcc.Order.ValidUTF8 (o : Testcc.Order) : Prop :=
  (∀ l, o.ItemsId = some l → ∀ s ∈ l, ValidString s = true)
    ∧ ValidString o.CustomerId = true ∧ ValidString o.Status = true

/-- The order of the scenario of the specification. -/
def sampleOrder : Testcc.Order :=
  { Id := 1, ItemsId := some [lit "a", lit "b", lit "c"], CustomerId := lit "42",
    Status := lit "Issued" }

/-- A Go string that is no UTF-8: the single byte `0xFF`. -/
def invalidByte : GoString := [0xFF]

/-- An order whose customer id is no UTF-8. -/
def invalidOrder : Testcc.Order :=
  { Id := 1, ItemsId := some [lit "a"], CustomerId := invalidByte, Status := lit "Issued" }

/-- A ledger that holds the encoding of `invalidOrder` under the key `1` and
nothing else. -/
def invalidState : GoString → Option Bytes :=
  fun k => if k = lit "1" then some (Testcc.Marshal invalidOrder).1 else none

/-- An order whose status is no UTF-8, as `changestatus` with the status `0xFF`
leaves the order of the scenario. -/
def invalidStatusOrder : Testcc.Order :=
  { Id := 1, ItemsId := some [lit "a", lit "b", lit "c"], CustomerId := lit "42",
    Status := invalidByte }

/-- An order with an item that is no UTF-8, as `submitorder` with the item list
`0xFF` makes it. -/
def invalidItemsOrder : Testcc.Order :=
  { Id := 1, ItemsId := some [invalidByte], CustomerId := lit "42", Status := lit "Issued" }

/-- A ledger that holds the encoding of the order `o` under the key `1` and
nothing else. -/
def orderState (o : Testcc.Order) : GoString → Option Bytes :=
  fun k => if k = lit "1" then some (Testcc.Marshal o).1 else none

/-- An order of the first file with a value in every field. -/
def sampleStartOrder : Start.Order :=
  { id := 1, itemsId := some [lit "a", lit "b", lit "c"], customerId := 42,
    status := Start.Shipped }

/-- A call of `Invoke` of the second file is within the checked part of the
handlers at `stub`: a `submitorder` with three arguments has an id that `Atoi`
reads without error, and an `editorder` or `changestatus` with two arguments
addresses a key that holds the encoding of an order. -/
def Admissible (table : Nat → Nat) (stub : Stub) (function : GoString)
    (args : List GoString) : Prop :=
  (ToLower table function = lit "submitorder" → args.length = 3 →
      ∀ id, args[0]? = some id → (Atoi id).2 = none)
  ∧ ((ToLower table function = lit "editorder" ∨ ToLower table function = lit "changestatus") →
      args.length = 2 →
      ∀ id, args[0]? = some id →
        ∃ o : Testcc.Order, IsInt o.Id ∧ stub.state id = some (Testcc.Marshal o).1)

/-- The stubs that admissible calls of `Invoke` of the second file reach from
a ledger that holds no order. -/
inductive Reachable (table : Nat → Nat) : Stub → Prop where
  | start (stub : Stub)
      (h : ∀ k (o : Testcc.Order), IsInt o.Id → stub.state k ≠ some (Testcc.Marshal o).1) :
      Reachable table stub
  | invoke (stub : Stub) (function : GoString) (args : List GoString)
      (hr : Reachable table stub) (ha : Admissible table stub function args) :
      Reachable table (Testcc.Invoke table stub function args).stub

/-! ## Theorems -/

/-! ### UTF-8 -/

/-- The three ways `DecodeRune` ends on a string that is not empty: an ASCII byte, an
invalid byte, or a rune of two to four bytes, which is above U+007F, is encoded
by exactly the bytes read and is read the same whatever follows them. -/
theorem decodeRune_cases (b0 : Nat) (t : List Nat) :
    (b0 < 0x80 ∧ DecodeRune (b0 :: t) = (b0, 1))
    ∨ (0x80 ≤ b0 ∧ DecodeRune (b0 :: t) = (RuneError, 1))
    ∨ (0x80 ≤ b0 ∧ 2 ≤ (DecodeRune (b0 :: t)).2 ∧ (DecodeRune (b0 :: t)).2 ≤ (b0 :: t).length
        ∧ 0x80 ≤ (DecodeRune (b0 :: t)).1
        ∧ EncodeRune (DecodeRune (b0 :: t)).1 = (b0 :: t).take (DecodeRune (b0 :: t)).2
        ∧ ∀ X, DecodeRune ((b0 :: t).take (DecodeRune (b0 :: t)).2 ++ X) = DecodeRune (b0 :: t)) := by
  by_cases h0 : b0 < 0x80
  · left; simp [DecodeRune, h0]
  · right
    by_cases h2 : 0xC2 ≤ b0 ∧ b0 ≤ 0xDF
    · cases t with
      | nil => left; simp [DecodeRune, h0, h2]; omega
      | cons b1 t1 =>
        by_cases c1 : isCont b1 = true
        · right
          simp only [DecodeRune, h0, h2, c1, if_true, if_false, and_self]
          simp only [isCont, Bool.and_eq_true, decide_eq_true_eq] at c1
          refine ⟨by omega, by simp, by simp, by omega, ?_, ?_⟩
          · have e1 : ¬ ((b0 - 0xC0) * 64 + (b1 - 0x80) < 0x80) := by omega
            have e2 : (b0 - 0xC0) * 64 + (b1 - 0x80) < 0x800 := by omega
            have e3 : 0xC0 + ((b0 - 0xC0) * 64 + (b1 - 0x80)) / 64 = b0 := by omega
            have e4 : 0x80 + ((b0 - 0xC0) * 64 + (b1 - 0x80)) % 64 = b1 := by omega
            simp only [EncodeRune, if_neg e1, if_pos e2, e3, e4]
            simp
          · intro X
            simp [DecodeRune, h0, h2, isCont, c1]
        · left; simp [DecodeRune, h0, h2, c1]; omega
    · by_cases h3 : 0xE0 ≤ b0 ∧ b0 ≤ 0xEF
      · match t with
        | [] => left; simp [DecodeRune, h0, h2, h3]; omega
        | [_] => left; simp [DecodeRune, h0, h2, h3]; omega
        | b1 :: b2 :: t2 =>
          by_cases c1 : (if b0 = 0xE0 then 0xA0 else 0x80) ≤ b1 ∧ b1 ≤ (if b0 = 0xED then 0x9F else 0xBF) ∧ isCont b2 = true
          · right
            simp only [DecodeRune, h0, h2, h3, c1, if_true, if_false, and_self]
            obtain ⟨c1a, c1b, c1c⟩ := c1
            simp only [isCont, Bool.and_eq_true, decide_eq_true_eq] at c1c
            have c1a' : 0x80 ≤ b1 ∧ (b0 = 0xE0 → 0xA0 ≤ b1) := by split at c1a <;> omega
            have c1b' : b1 ≤ 0xBF ∧ (b0 = 0xED → b1 ≤ 0x9F) := by split at c1b <;> omega
            refine ⟨by omega, by simp, by simp, by omega, ?_, ?_⟩
            · have e1 : ¬ ((b0 - 0xE0) * 4096 + (b1 - 0x80) * 64 + (b2 - 0x80) < 0x80) := by omega
              have e2 : ¬ ((b0 - 0xE0) * 4096 + (b1 - 0x80) * 64 + (b2 - 0x80) < 0x800) := by omega
              have e5 : ¬ (0x10FFFF < (b0 - 0xE0) * 4096 + (b1 - 0x80) * 64 + (b2 - 0x80) ∨ (0xD800 ≤ (b0 - 0xE0) * 4096 + (b1 - 0x80) * 64 + (b2 - 0x80) ∧ (b0 - 0xE0) * 4096 + (b1 - 0x80) * 64 + (b2 - 0x80) ≤ 0xDFFF)) := by omega
              have e6 : (b0 - 0xE0) * 4096 + (b1 - 0x80) * 64 + (b2 - 0x80) < 0x10000 := by omega
              have e3 : 0xE0 + ((b0 - 0xE0) * 4096 + (b1 - 0x80) * 64 + (b2 - 0x80)) / 4096 = b0 := by omega
              have e4 : 0x80 + ((b0 - 0xE0) * 4096 + (b1 - 0x80) * 64 + (b2 - 0x80)) / 64 % 64 = b1 := by omega
              have e7 : 0x80 + ((b0 - 0xE0) * 4096 + (b1 - 0x80) * 64 + (b2 - 0x80)) % 64 = b2 := by omega
              simp only [EncodeRune, if_neg e1, if_neg e2, if_neg e5, if_pos e6, e3, e4, e7]
              simp
            · intro X
              simp [DecodeRune, h0, h2, h3, isCont, c1a, c1b, c1c]
          · left; simp [DecodeRune, h0, h2, h3, c1]; omega
      · by_cases h4 : 0xF0 ≤ b0 ∧ b0 ≤ 0xF4
        · match t with
          | [] => left; simp [DecodeRune, h0, h2, h3, h4]; omega
          | [_] => left; simp [DecodeRune, h0, h2, h3, h4]; omega
          | [_, _] => left; simp [DecodeRune, h0, h2, h3, h4]; omega
          | b1 :: b2 :: b3 :: t3 =>
            by_cases c1 : (if b0 = 0xF0 then 0x90 else 0x80) ≤ b1
                ∧ b1 ≤ (if b0 = 0xF4 then 0x8F else 0xBF) ∧ isCont b2 = true ∧ isCont b3 = true
            · right
              simp only [DecodeRune, h0, h2, h3, h4, c1, if_true, if_false, and_self]
              obtain ⟨c1a, c1b, c1c, c1d⟩ := c1
              simp only [isCont, Bool.and_eq_true, decide_eq_true_eq] at c1c c1d
              have c1a' : 0x80 ≤ b1 ∧ (b0 = 0xF0 → 0x90 ≤ b1) := by split at c1a <;> omega
              have c1b' : b1 ≤ 0xBF ∧ (b0 = 0xF4 → b1 ≤ 0x8F) := by split at c1b <;> omega
              refine ⟨by omega, by simp, by simp, by omega, ?_, ?_⟩
              · generalize hr : (b0 - 0xF0) * 262144 + (b1 - 0x80) * 4096 + (b2 - 0x80) * 64
                  + (b3 - 0x80) = r
                have e1 : ¬ (r < 0x80) := by omega
                have e2 : ¬ (r < 0x800) := by omega
                have e5 : ¬ (0x10FFFF < r ∨ (0xD800 ≤ r ∧ r ≤ 0xDFFF)) := by omega
                have e6 : ¬ (r < 0x10000) := by omega
                have e3 : 0xF0 + r / 262144 = b0 := by omega
                have e4 : 0x80 + r / 4096 % 64 = b1 := by omega
                have e7 : 0x80 + r / 64 % 64 = b2 := by omega
                have e8 : 0x80 + r % 64 = b3 := by omega
                simp only [EncodeRune, if_neg e1, if_neg e2, if_neg e5, if_neg e6, e3, e4, e7, e8]
                simp
              · intro X
                simp [DecodeRune, h0, h2, h3, h4, isCont, c1a, c1b, c1c, c1d]
            · left; simp [DecodeRune, h0, h2, h3, h4, c1]; omega
        · left; simp [DecodeRune, h0, h2, h3, h4]; omega

/-- On a string that is not empty `DecodeRune` takes at least one byte. -/
theorem decodeRune_size_pos (b0 : Nat) (t : List Nat) : 1 ≤ (DecodeRune (b0 :: t)).2 := by
  rcases decodeRune_cases b0 t with h | h | h
  · rw [h.2]
  · rw [h.2]
  · omega

/-- The loop over the runes does not depend on the fuel once there is enough. -/
theorem runesAux_fuel (fuel1 : Nat) :
    ∀ (fuel2 : Nat) (s : List Nat), s.length ≤ fuel1 → s.length ≤ fuel2 →
      runesAux fuel1 s = runesAux fuel2 s := by
  induction fuel1 with
  | zero =>
    intro fuel2 s h1 h2
    have : s = [] := List.eq_nil_of_length_eq_zero (by omega)
    subst this
    cases fuel2 <;> simp [runesAux]
  | succ n ih =>
    intro fuel2 s h1 h2
    cases s with
    | nil => cases fuel2 <;> simp [runesAux]
    | cons b t =>
      cases fuel2 with
      | zero => simp at h2
      | succ m =>
        have hp := decodeRune_size_pos b t
        simp only [runesAux]
        congr 1
        apply ih <;> simp only [List.length_drop, List.length_cons] at * <;> omega

/-- The empty string has no rune. -/
theorem runes_nil : runes [] = [] := rfl

/-- The runes of a string that is not empty: the first one, then those of the rest. -/
theorem runes_cons (b : Nat) (t : List Nat) :
    runes (b :: t) = ((DecodeRune (b :: t)).1, (b :: t).take (DecodeRune (b :: t)).2)
      :: runes ((b :: t).drop (DecodeRune (b :: t)).2) := by
  have hp := decodeRune_size_pos b t
  simp only [runes, List.length_cons, runesAux]
  congr 1
  apply runesAux_fuel <;> simp only [List.length_drop, List.length_cons] <;> omega

/-- A hexadecimal digit the encoder writes is read back as its value. -/
theorem hexVal_hexDigit (n : Nat) (h : n < 16) : hexVal (hexDigit n) = some n := by
  unfold hexDigit hexVal
  by_cases h1 : n < 10
  · have : 0x30 ≤ 0x30 + n ∧ 0x30 + n ≤ 0x39 := by omega
    simp [h1, this]
  · have a : ¬ (0x30 ≤ 0x57 + n ∧ 0x57 + n ≤ 0x39) := by omega
    have b : 0x61 ≤ 0x57 + n ∧ 0x57 + n ≤ 0x66 := by omega
    simp [h1, a, b]

/-- One step of the round trip of a string: what the encoder writes for a rune is not
empty, and the decoder reads it as the UTF-8 of that rune. -/
theorem parseStringBody_escape (b0 : Nat) (t X acc : List Nat) (fuel : Nat) :
    1 ≤ (escapeRune ((DecodeRune (b0 :: t)).1, (b0 :: t).take (DecodeRune (b0 :: t)).2)).length
    ∧ parseStringBody (fuel + 1)
        (escapeRune ((DecodeRune (b0 :: t)).1, (b0 :: t).take (DecodeRune (b0 :: t)).2) ++ X) acc
      = parseStringBody fuel X (acc ++ EncodeRune (DecodeRune (b0 :: t)).1) := by
  rcases decodeRune_cases b0 t with ⟨h0, hd⟩ | ⟨h0, hd⟩ | ⟨h0, h2, hlen, hr, henc, hloc⟩
  · rw [hd]
    have henc : EncodeRune b0 = [b0] := by simp [EncodeRune, h0]
    simp only [escapeRune, h0, if_true, henc]
    by_cases p : 0x20 ≤ b0 ∧ b0 ≠ 0x5C ∧ b0 ≠ 0x22 ∧ b0 ≠ 0x3C ∧ b0 ≠ 0x3E ∧ b0 ≠ 0x26
    · have a1 : ¬ b0 < 0x20 := by omega
      simp [p, parseStringBody, a1, h0]
    · simp only [p, if_false]
      by_cases q : b0 = 0x5C ∨ b0 = 0x22
      · rcases q with q | q <;> subst q <;> simp [parseStringBody]
      · simp only [q, if_false]
        by_cases q1 : b0 = 0x0A
        · subst q1; simp [parseStringBody]
        by_cases q2 : b0 = 0x0D
        · subst q2; simp [parseStringBody]
        by_cases q3 : b0 = 0x09
        · subst q3; simp [parseStringBody]
        have v1 := hexVal_hexDigit (b0 / 16) (by omega)
        have v2 := hexVal_hexDigit (b0 % 16) (by omega)
        have v0 : hexVal 0x30 = some 0 := by decide
        have hv : b0 / 16 * 16 + b0 % 16 = b0 := by omega
        have ns : ¬ (0xD800 ≤ b0 ∧ b0 < 0xE000) := by omega
        simp [q1, q2, q3, parseStringBody, hex4, v0, v1, v2, hv, unescapeU, ns, henc]
  · rw [hd]
    have e : escapeRune (RuneError, List.take 1 (b0 :: t)) = [0x5C, 0x75, 0x66, 0x66, 0x66, 0x64] := by
      simp [escapeRune, RuneError]
    have hx : hex4 0x66 0x66 0x66 0x64 = some 0xFFFD := by decide
    rw [e]
    simp [parseStringBody, hx, unescapeU, RuneError]
  · generalize hdd : DecodeRune (b0 :: t) = d at *
    obtain ⟨r, n⟩ := d
    simp only at h2 hlen hr henc hloc ⊢
    have hlt : ¬ r < 0x80 := by omega
    have hlen2 : ((b0 :: t).take n).length = n := by
      rw [List.length_take]; omega
    have hne : ¬ (r = RuneError ∧ ((b0 :: t).take n).length = 1) := by
      rw [hlen2]; omega
    simp only [escapeRune, hlt, if_false, hne]
    by_cases hs : r = 0x2028 ∨ r = 0x2029
    · have hx : hex4 0x32 0x30 0x32 (hexDigit (r % 16)) = some r := by
        rcases hs with hs | hs <;> subst hs <;> decide
      have ns : ¬ (0xD800 ≤ r ∧ r < 0xE000) := by omega
      simp [hs, parseStringBody, hx, unescapeU, ns]
    · simp only [hs, if_false]
      constructor
      · rw [hlen2]; omega
      · have htake : (b0 :: t).take n = b0 :: t.take (n - 1) := by
          cases n with
          | zero => omega
          | succ m => simp
        have a1 : ¬ b0 = 0x22 := by omega
        have a2 : ¬ b0 = 0x5C := by omega
        have a3 : ¬ b0 < 0x20 := by omega
        have a4 : ¬ b0 < 0x80 := by omega
        have hl := hloc X
        rw [htake] at hl hlen2
        rw [List.cons_append] at hl
        rw [htake]
        simp only [List.cons_append, parseStringBody, a1, a2, a3, a4, if_false, List.append_eq]
        rw [hl]
        simp only
        congr 1
        rw [← List.cons_append, List.drop_left' hlen2]

/-- The coercion of the empty string. -/
theorem coerceUTF8_nil : coerceUTF8 [] = [] := rfl

/-- The coercion of a string that is not empty, rune by rune. -/
theorem coerceUTF8_cons (b : Nat) (t : List Nat) :
    coerceUTF8 (b :: t) = EncodeRune (DecodeRune (b :: t)).1
      ++ coerceUTF8 ((b :: t).drop (DecodeRune (b :: t)).2) := by
  simp [coerceUTF8, runes_cons]

/-- The decoder reads the body the encoder wrote for `s`, up to the closing quote,
as `s` coerced to valid UTF-8, with any fuel from the length of the body on. -/
theorem parseStringBody_encode (n : Nat) :
    ∀ (s : List Nat), s.length ≤ n → ∀ (X acc : List Nat) (fuel : Nat),
      ((runes s).flatMap escapeRune).length + 1 ≤ fuel →
      parseStringBody fuel ((runes s).flatMap escapeRune ++ 0x22 :: X) acc
        = some (acc ++ coerceUTF8 s, X) := by
  induction n with
  | zero =>
    intro s hs X acc fuel hf
    have : s = [] := List.eq_nil_of_length_eq_zero (by omega)
    subst this
    cases fuel with
    | zero => omega
    | succ f => simp [runes_nil, parseStringBody, coerceUTF8_nil]
  | succ n ih =>
    intro s hs X acc fuel hf
    cases s with
    | nil =>
      cases fuel with
      | zero => omega
      | succ f => simp [runes_nil, parseStringBody, coerceUTF8_nil]
    | cons b t =>
      have hp := decodeRune_size_pos b t
      cases fuel with
      | zero => omega
      | succ f =>
        rw [runes_cons] at hf ⊢
        rw [List.flatMap_cons] at hf ⊢
        have hc := parseStringBody_escape b t
          ((runes ((b :: t).drop (DecodeRune (b :: t)).2)).flatMap escapeRune ++ 0x22 :: X) acc f
        have h1 : ((b :: t).drop (DecodeRune (b :: t)).2).length ≤ n := by
          simp only [List.length_drop, List.length_cons] at hs ⊢; omega
        have h2 : ((runes ((b :: t).drop (DecodeRune (b :: t)).2)).flatMap escapeRune).length + 1
            ≤ f := by
          have := hc.1
          rw [List.length_append] at hf; omega
        rw [List.append_assoc, hc.2, ih _ h1 X _ f h2, coerceUTF8_cons, List.append_assoc]

/-- The coercion leaves a string of valid UTF-8 as it is (by the length of the string). -/
theorem validString_coerce (n : Nat) :
    ∀ (s : List Nat), s.length ≤ n → ValidString s = true → coerceUTF8 s = s := by
  induction n with
  | zero =>
    intro s hs _
    have : s = [] := List.eq_nil_of_length_eq_zero (by omega)
    subst this; rfl
  | succ n ih =>
    intro s hs hv
    cases s with
    | nil => rfl
    | cons b t =>
      have hp := decodeRune_size_pos b t
      rw [ValidString, runes_cons, List.all_cons, Bool.and_eq_true] at hv
      rw [coerceUTF8_cons, ih _ _ hv.2]
      · rcases decodeRune_cases b t with ⟨h0, hd⟩ | ⟨h0, hd⟩ | ⟨h0, h2, hlen, hr, henc, hloc⟩
        · rw [hd]; simp [EncodeRune, h0]
        · have := hv.1
          rw [hd] at this
          simp [RuneError] at this
        · rw [henc, List.take_append_drop]
      · simp only [List.length_drop, List.length_cons] at hs ⊢; omega

/-! ### Numbers -/

/-- The digits of a number: a first digit, not `0` unless the number is 0, and
further digits before the accumulator. -/
theorem digitsAux_shape (fuel : Nat) :
    ∀ (n : Nat) (acc : List Nat), n < fuel →
      ∃ c ds, digitsAux fuel n acc = c :: (ds ++ acc)
        ∧ (0x30 ≤ c ∧ c ≤ 0x39) ∧ (∀ x ∈ ds, 0x30 ≤ x ∧ x ≤ 0x39)
        ∧ (0 < n → 0x31 ≤ c) ∧ (n = 0 → c = 0x30 ∧ ds = []) := by
  induction fuel with
  | zero => intro n acc h; omega
  | succ f ih =>
    intro n acc h
    by_cases h10 : n < 10
    · refine ⟨0x30 + n, [], ?_, by omega, by simp, by omega, fun h0 => ⟨by omega, rfl⟩⟩
      simp [digitsAux, h10]
    · obtain ⟨c, ds, e, hc, hds, hpos, _⟩ := ih (n / 10) ((0x30 + n % 10) :: acc) (by omega)
      refine ⟨c, ds ++ [0x30 + n % 10], ?_, hc, ?_, fun _ => hpos (by omega),
        fun h0 => absurd h0 (by omega)⟩
      · simp [digitsAux, h10, e]
      · intro x hx
        rcases List.mem_append.1 hx with hx | hx
        · exact hds x hx
        · simp at hx; omega

/-- The digit loop of `ParseUint` reads the digits of `n` as `n`, when `n` fits 64 bits. -/
theorem parseUintLoop_digitsAux (fuel : Nat) :
    ∀ (n : Nat) (acc : List Nat), n < fuel → n ≤ maxUint64 →
      parseUintLoop (digitsAux fuel n acc) 0 = parseUintLoop acc n := by
  induction fuel with
  | zero => intro n acc h; omega
  | succ f ih =>
    intro n acc h hmax
    have hm : maxUint64 = 18446744073709551615 := by decide
    by_cases h10 : n < 10
    · have d : 0x30 ≤ 0x30 + n ∧ 0x30 + n ≤ 0x39 := by omega
      have a1 : ¬ (0 ≥ maxUint64 / 10 + 1) := by rw [hm]; omega
      have a2 : ¬ (0 * 10 + (0x30 + n - 0x30) > maxUint64) := by rw [hm]; omega
      have a3 : 0 * 10 + (0x30 + n - 0x30) = n := by omega
      have a4 : ¬ (n > maxUint64) := by omega
      simp only [digitsAux, h10, if_true, parseUintLoop, d, and_self, a1, if_false, a3, a4]
    · rw [hm] at hmax
      have d : 0x30 ≤ 0x30 + n % 10 ∧ 0x30 + n % 10 ≤ 0x39 := by omega
      have a1 : ¬ (n / 10 ≥ maxUint64 / 10 + 1) := by rw [hm]; omega
      have a2 : ¬ (n / 10 * 10 + (0x30 + n % 10 - 0x30) > maxUint64) := by rw [hm]; omega
      have a3 : n / 10 * 10 + (0x30 + n % 10 - 0x30) = n := by omega
      simp only [digitsAux, h10, if_false]
      rw [ih (n / 10) _ (by omega) (by rw [hm]; omega)]
      have a4 : ¬ (n > maxUint64) := by rw [hm]; omega
      simp only [parseUintLoop, d, and_self, if_true, a1, if_false, a3, a4]

/-- `ParseInt` reads the decimal form of a 64-bit integer as that integer, with no error. -/
theorem parseInt_formatInt (i : Int) (hlo : -(2 ^ 63) ≤ i) (hhi : i < 2 ^ 63) :
    ParseInt (FormatInt i) = (i, none) := by
  have hm : maxUint64 = 18446744073709551615 := by decide
  obtain ⟨c, ds, e, hc, hds, hpos, hz⟩ := digitsAux_shape (i.natAbs + 1) i.natAbs [] (by omega)
  have hv := parseUintLoop_digitsAux (i.natAbs + 1) i.natAbs [] (by omega) (by rw [hm]; omega)
  have hu : ParseUint (formatNat i.natAbs) = (i.natAbs, none) := by
    unfold ParseUint formatNat
    rw [e] 
    simp only
    rw [← e, hv]
    rfl
  by_cases hneg : i < 0
  · have a1 : ¬ ((0x2D : Nat) ≠ 0x2D ∧ i.natAbs ≥ 2 ^ 63) := by omega
    have a2 : ¬ ((0x2D : Nat) = 0x2D ∧ i.natAbs > 2 ^ 63) := by omega
    have a3 : -(i.natAbs : Int) = i := by omega
    have b2 : ¬ (i.natAbs > 2 ^ 63) := by omega
    simp only [FormatInt, hneg, if_true, ParseInt, or_true, hu]
    simp [b2, a3]
    rw [if_neg (by omega), abs_of_neg hneg, neg_neg]
  · have c1 : ¬ (c = 0x2B ∨ c = 0x2D) := by omega
    have c2 : ¬ c = 0x2D := by omega
    have a1 : ¬ (c ≠ 0x2D ∧ i.natAbs ≥ 2 ^ 63) := by omega
    have a2 : ¬ (c = 0x2D ∧ i.natAbs > 2 ^ 63) := by omega
    have a3 : (i.natAbs : Int) = i := by omega
    have hf : formatNat i.natAbs = c :: (ds ++ []) := e
    simp only [FormatInt, hneg, if_false]
    rw [hf]
    simp only [ParseInt, c1, if_false]
    rw [← hf, hu]
    have b1 : ¬ (i.natAbs ≥ 2 ^ 63) := by omega
    simp [c2, a3, b1]
    omega

/-- A run of digits followed by a byte that is no digit is taken whole. -/
theorem takeDigits_append (ds : List Nat) (x : Nat) (X : List Nat)
    (hds : ∀ y ∈ ds, 0x30 ≤ y ∧ y ≤ 0x39) (hx : ¬ (0x30 ≤ x ∧ x ≤ 0x39)) :
    takeDigits (ds ++ x :: X) = (ds, x :: X) := by
  induction ds with
  | nil => simp [takeDigits, hx]
  | cons d ds ih =>
    have hd := hds d (by simp)
    have := ih (fun y hy => hds y (by simp [hy]))
    simp [takeDigits, hd, this]

/-- The decimal form of an integer starts with a minus sign or a digit. -/
theorem formatInt_shape (i : Int) :
    ∃ c t, FormatInt i = c :: t ∧ (c = 0x2D ∨ (0x30 ≤ c ∧ c ≤ 0x39)) := by
  obtain ⟨c, ds, e, hc, -, -, -⟩ := digitsAux_shape (i.natAbs + 1) i.natAbs [] (by omega)
  by_cases hneg : i < 0
  · exact ⟨0x2D, formatNat i.natAbs, by simp [FormatInt, hneg], Or.inl rfl⟩
  · exact ⟨c, ds ++ [], by simp [FormatInt, hneg, formatNat, e], Or.inr hc⟩

/-- The number parser reads the decimal form of a natural number up to a comma
or a closing brace. -/
theorem parseUnsigned_formatNat (n : Nat) (sign X : List Nat) (x : Nat)
    (hx : x = 0x2C ∨ x = 0x7D) :
    parseUnsigned sign (formatNat n ++ x :: X) = some (sign ++ formatNat n, x :: X) := by
  obtain ⟨c, ds, e, hc, hds, hpos, hz⟩ := digitsAux_shape (n + 1) n [] (by omega)
  have hxd : ¬ (0x30 ≤ x ∧ x ≤ 0x39) := by omega
  have hx1 : ¬ x = 0x2E := by omega
  have hx2 : ¬ (x = 0x65 ∨ x = 0x45) := by omega
  have hf : formatNat n = c :: ds := by simp [formatNat, e]
  rw [hf]
  by_cases h0 : n = 0
  · obtain ⟨rfl, rfl⟩ := hz h0
    simp [parseUnsigned, parseFraction, parseExponent, hx1, hx2]
  · have c0 : ¬ c = 0x30 := by have := hpos (by omega); omega
    have c1 : 0x31 ≤ c ∧ c ≤ 0x39 := by have := hpos (by omega); omega
    simp [parseUnsigned, c0, c1, takeDigits_append ds x X hds hxd, parseFraction,
      parseExponent, hx1, hx2]

/-- The number parser reads the decimal form of an integer up to a comma or a
closing brace. -/
theorem parseNumber_formatInt (i : Int) (X : List Nat) (x : Nat) (hx : x = 0x2C ∨ x = 0x7D) :
    parseNumber (FormatInt i ++ x :: X) = some (FormatInt i, x :: X) := by
  by_cases hneg : i < 0
  · simp [FormatInt, hneg, parseNumber, parseUnsigned_formatNat _ _ _ _ hx]
  · obtain ⟨c, ds, e, hc, -, -, -⟩ := digitsAux_shape (i.natAbs + 1) i.natAbs [] (by omega)
    have hf : formatNat i.natAbs = c :: ds := by simp [formatNat, e]
    have c0 : ¬ c = 0x2D := by omega
    simp only [FormatInt, hneg, if_false]
    have := parseUnsigned_formatNat i.natAbs [] X x hx
    rw [hf] at this ⊢
    simp only [List.cons_append, List.nil_append] at this ⊢
    simp [parseNumber, c0, this]

/-- The value parser reads the decimal form of an integer as a number. -/
theorem parseValue_formatInt (f : Nat) (i : Int) (X : List Nat) (x : Nat)
    (hx : x = 0x2C ∨ x = 0x7D) :
    parseValue (f + 1) (FormatInt i ++ x :: X) = some (.number (FormatInt i), x :: X) := by
  obtain ⟨c, t, e, hc⟩ := formatInt_shape i
  have hn := parseNumber_formatInt i X x hx
  rw [e] at hn ⊢
  have w : ¬ (c = 0x20 ∨ c = 0x09 ∨ c = 0x0A ∨ c = 0x0D) := by omega
  have a1 : ¬ c = 0x7B := by omega
  have a2 : ¬ c = 0x5B := by omega
  have a3 : ¬ c = 0x22 := by omega
  have a4 : c = 0x2D ∨ (0x30 ≤ c ∧ c ≤ 0x39) := hc
  rw [List.cons_append] at hn ⊢
  simp only [parseValue, skipWS, w, if_false, a1, a2, a3, a4, if_true, hn]

/-- The value parser reads an encoded string as that string coerced to valid UTF-8. -/
theorem parseValue_encodeString (f : Nat) (s X : List Nat) :
    parseValue (f + 1) (encodeString s ++ X) = some (.string (coerceUTF8 s), X) := by
  have h := parseStringBody_encode s.length s (le_refl _) X []
    (((runes s).flatMap escapeRune ++ 0x22 :: X).length) (by simp)
  have e : encodeString s ++ X = 0x22 :: ((runes s).flatMap escapeRune ++ 0x22 :: X) := by
    simp [encodeString]
  rw [e]
  generalize ((runes s).flatMap escapeRune ++ 0x22 :: X) = T at h
  have hw : skipWS (0x22 :: T) = 0x22 :: T := by simp [skipWS]
  simp [parseValue, hw, h]

/-! ### Arrays and objects -/

/-- An encoded string starts with a quote. -/
theorem encodeString_cons (s : List Nat) :
    encodeString s = 0x22 :: ((runes s).flatMap escapeRune ++ [0x22]) := rfl

/-- The encoded elements take at least one byte each. -/
theorem encodeStrings_length (l : List GoString) : l.length ≤ (encodeStrings l).length := by
  induction l with
  | nil => simp
  | cons s r ih =>
    cases r with
    | nil => simp [encodeStrings, encodeString]
    | cons s2 r2 =>
      simp only [encodeStrings, List.length_append, List.length_cons, encodeString] at ih ⊢
      omega

/-- The array loop reads the encoded elements of a slice that is not empty. -/
theorem parseElems_encodeStrings (f : Nat) :
    ∀ (l : List GoString), l ≠ [] → ∀ (fuel : Nat) (acc : List JSON) (X : List Nat),
      l.length ≤ fuel →
      parseElems (fun x => parseValue (f + 1) x) fuel (encodeStrings l ++ 0x5D :: X) acc
        = some (acc ++ l.map (fun s => JSON.string (coerceUTF8 s)), X) := by
  intro l
  induction l with
  | nil => intro h; exact absurd rfl h
  | cons s r ih =>
    intro _ fuel acc X hf
    cases fuel with
    | zero => simp at hf
    | succ fuel =>
      cases r with
      | nil =>
        simp [encodeStrings, parseElems, parseValue_encodeString, skipWS]
      | cons s2 r2 =>
        have := ih (by simp) fuel (acc ++ [JSON.string (coerceUTF8 s)]) X
          (by simp only [List.length_cons] at hf ⊢; omega)
        simp only [encodeStrings, List.append_assoc, List.cons_append] at this ⊢
        simp [parseElems, parseValue_encodeString, skipWS, this]

/-- The value parser reads an encoded `[]string` back. -/
theorem parseValue_encodeSlice (f : Nat) (sl : Option (List GoString)) (X : List Nat) :
    parseValue (f + 2) (encodeSlice sl ++ 0x2C :: X) = some (sliceJSON sl, 0x2C :: X) := by
  cases sl with
  | none =>
    have e : encodeSlice none ++ 0x2C :: X = 0x6E :: 0x75 :: 0x6C :: 0x6C :: 0x2C :: X := rfl
    rw [e]
    simp [parseValue, skipWS, sliceJSON]
  | some l =>
    cases l with
    | nil => simp [encodeSlice, encodeStrings, parseValue, skipWS, sliceJSON]
    | cons s r =>
      have hl := encodeStrings_length (s :: r)
      have hp := parseElems_encodeStrings f (s :: r) (by simp)
        ((encodeStrings (s :: r) ++ 0x5D :: 0x2C :: X).length) [] (0x2C :: X)
        (by simp only [List.length_append]; omega)
      obtain ⟨T, hT⟩ : ∃ T, encodeStrings (s :: r) ++ 0x5D :: 0x2C :: X = 0x22 :: T := by
        cases r with
        | nil => exact ⟨_, by simp [encodeStrings, encodeString]; rfl⟩
        | cons s2 r2 => exact ⟨_, by simp [encodeStrings, encodeString]; rfl⟩
      have e : encodeSlice (some (s :: r)) ++ 0x2C :: X
          = 0x5B :: (encodeStrings (s :: r) ++ 0x5D :: 0x2C :: X) := by
        simp [encodeSlice]
      rw [e]
      rw [hT] at hp ⊢
      obtain ⟨g, hg⟩ : ∃ g, g = f + 1 := ⟨_, rfl⟩
      rw [show f + 2 = g + 1 by omega]
      rw [← hg] at hp
      have hw : skipWS (0x22 :: T) = 0x22 :: T := by simp [skipWS]
      rw [List.length_cons] at hp
      simp only [parseValue, skipWS]
      simp [hw, hp, sliceJSON]

/-- One member of an object followed by a comma: the loop goes on with it recorded. -/
theorem parseMembers_comma (pv : List Nat → Option (JSON × List Nat)) (fuel : Nat)
    (key valueText X : List Nat) (v : JSON) (acc : List (GoString × JSON))
    (hk : (runes key).flatMap escapeRune = key) (hk2 : coerceUTF8 key = key)
    (hv : pv (valueText ++ 0x2C :: X) = some (v, 0x2C :: X)) :
    parseMembers pv (fuel + 1) (0x22 :: (key ++ 0x22 :: 0x3A :: (valueText ++ 0x2C :: X))) acc
      = parseMembers pv fuel X (acc ++ [(key, v)]) := by
  have h := parseStringBody_encode key.length key (le_refl _)
    (0x3A :: (valueText ++ 0x2C :: X)) []
    ((key ++ 0x22 :: 0x3A :: (valueText ++ 0x2C :: X)).length)
    (by rw [hk]; simp)
  rw [hk, hk2] at h
  generalize key ++ 0x22 :: 0x3A :: (valueText ++ 0x2C :: X) = T at h
  have hw : skipWS (0x22 :: T) = 0x22 :: T := by simp [skipWS]
  simp only [parseMembers, hw, h]
  simp [skipWS, hv]

/-- The last member of an object, followed by the closing brace. -/
theorem parseMembers_brace (pv : List Nat → Option (JSON × List Nat)) (fuel : Nat)
    (key valueText X : List Nat) (v : JSON) (acc : List (GoString × JSON))
    (hk : (runes key).flatMap escapeRune = key) (hk2 : coerceUTF8 key = key)
    (hv : pv (valueText ++ 0x7D :: X) = some (v, 0x7D :: X)) :
    parseMembers pv (fuel + 1) (0x22 :: (key ++ 0x22 :: 0x3A :: (valueText ++ 0x7D :: X))) acc
      = some (acc ++ [(key, v)], X) := by
  have h := parseStringBody_encode key.length key (le_refl _)
    (0x3A :: (valueText ++ 0x7D :: X)) []
    ((key ++ 0x22 :: 0x3A :: (valueText ++ 0x7D :: X)).length)
    (by rw [hk]; simp)
  rw [hk, hk2] at h
  generalize key ++ 0x22 :: 0x3A :: (valueText ++ 0x7D :: X) = T at h
  have hw : skipWS (0x22 :: T) = 0x22 :: T := by simp [skipWS]
  simp only [parseMembers, hw, h]
  simp [skipWS, hv]

/-- The text `Marshal` writes, byte by byte around the four values. -/
theorem marshal_eq (o : Testcc.Order) :
    (Testcc.Marshal o).1 = 0x7B :: 0x22 :: (lit "Id" ++ 0x22 :: 0x3A :: (FormatInt o.Id
      ++ 0x2C :: 0x22 :: (lit "ItemsId" ++ 0x22 :: 0x3A :: (encodeSlice o.ItemsId
      ++ 0x2C :: 0x22 :: (lit "CustomerId" ++ 0x22 :: 0x3A :: (encodeString o.CustomerId
      ++ 0x2C :: 0x22 :: (lit "Status" ++ 0x22 :: 0x3A :: (encodeString o.Status
      ++ 0x7D :: [])))))))) := by
  have e1 : lit "\x7b\"Id\":" = 0x7B :: 0x22 :: (lit "Id" ++ [0x22, 0x3A]) := by decide
  have e2 : lit ",\"ItemsId\":" = 0x2C :: 0x22 :: (lit "ItemsId" ++ [0x22, 0x3A]) := by decide
  have e3 : lit ",\"CustomerId\":" = 0x2C :: 0x22 :: (lit "CustomerId" ++ [0x22, 0x3A]) := by
    decide
  have e4 : lit ",\"Status\":" = 0x2C :: 0x22 :: (lit "Status" ++ [0x22, 0x3A]) := by decide
  have e5 : lit "\x7d" = [0x7D] := by decide
  simp only [Testcc.Marshal, e1, e2, e3, e4, e5, List.append_assoc, List.cons_append,
    List.nil_append]

/-- The parser reads the text `Marshal` wrote as the object of the four fields. -/
theorem parseJSON_marshal (o : Testcc.Order) :
    parseJSON (Testcc.Marshal o).1 = some (.object
      [(lit "Id", .number (FormatInt o.Id)), (lit "ItemsId", sliceJSON o.ItemsId),
        (lit "CustomerId", .string (coerceUTF8 o.CustomerId)),
        (lit "Status", .string (coerceUTF8 o.Status))]) := by
  rw [marshal_eq]
  generalize hT : (0x22 :: (lit "Id" ++ 0x22 :: 0x3A :: (FormatInt o.Id
      ++ 0x2C :: 0x22 :: (lit "ItemsId" ++ 0x22 :: 0x3A :: (encodeSlice o.ItemsId
      ++ 0x2C :: 0x22 :: (lit "CustomerId" ++ 0x22 :: 0x3A :: (encodeString o.CustomerId
      ++ 0x2C :: 0x22 :: (lit "Status" ++ 0x22 :: 0x3A :: (encodeString o.Status
      ++ 0x7D :: []))))))))) = T
  obtain ⟨n, hn⟩ : ∃ n, T.length = n + 4 := by
    refine ⟨T.length - 4, ?_⟩
    have : 4 ≤ T.length := by
      rw [← hT]
      simp only [List.length_cons, List.length_append]
      omega
    omega
  have k1 : (runes (lit "Id")).flatMap escapeRune = lit "Id" ∧ coerceUTF8 (lit "Id") = lit "Id" := by
    decide
  have k2 : (runes (lit "ItemsId")).flatMap escapeRune = lit "ItemsId"
      ∧ coerceUTF8 (lit "ItemsId") = lit "ItemsId" := by decide
  have k3 : (runes (lit "CustomerId")).flatMap escapeRune = lit "CustomerId"
      ∧ coerceUTF8 (lit "CustomerId") = lit "CustomerId" := by decide
  have k4 : (runes (lit "Status")).flatMap escapeRune = lit "Status"
      ∧ coerceUTF8 (lit "Status") = lit "Status" := by decide
  have hm : parseMembers (fun x => parseValue (n + 5) x) (n + 4) T []
      = some ([(lit "Id", .number (FormatInt o.Id)), (lit "ItemsId", sliceJSON o.ItemsId),
        (lit "CustomerId", .string (coerceUTF8 o.CustomerId)),
        (lit "Status", .string (coerceUTF8 o.Status))], []) := by
    rw [← hT]
    rw [parseMembers_comma _ _ _ _ _ _ _ k1.1 k1.2 (parseValue_formatInt _ _ _ _ (Or.inl rfl))]
    rw [parseMembers_comma _ _ _ _ _ _ _ k2.1 k2.2 (parseValue_encodeSlice _ _ _)]
    rw [parseMembers_comma _ _ _ _ _ _ _ k3.1 k3.2 (parseValue_encodeString _ _ _)]
    rw [parseMembers_brace _ _ _ _ _ _ _ k4.1 k4.2 (parseValue_encodeString _ _ _)]
    rfl
  obtain ⟨U, hU⟩ : ∃ U, T = 0x22 :: U := ⟨_, hT.symm⟩
  have hw : skipWS (0x22 :: U) = 0x22 :: U := by simp [skipWS]
  have hw2 : skipWS (0x7B :: T) = 0x7B :: T := by simp [skipWS]
  obtain ⟨g, hg⟩ : ∃ g, g = n + 5 := ⟨_, rfl⟩
  rw [← hg, ← hn] at hm
  have hlen : (0x7B :: T).length + 1 = g + 1 := by rw [List.length_cons, hn, hg]
  unfold parseJSON
  rw [hlen]
  simp only [parseValue, hw2, if_true]
  rw [hm]
  rw [hU, hw]
  simp [skipWS]

/-- An array of strings is stored as those strings. -/
theorem decodeElems_strings (l : List GoString) (old : List GoString) :
    decodeElems (l.map fun s => JSON.string (coerceUTF8 s)) old = (l.map coerceUTF8, false) := by
  induction l generalizing old with
  | nil => rfl
  | cons s r ih => simp [decodeElems, ih]

/-- Decoding what `Marshal` wrote gives the order back with its strings coerced
to valid UTF-8, and no error, whatever the order decoded into held. -/
theorem unmarshal_marshal (o base : Testcc.Order) (hid : IsInt o.Id) :
    Testcc.Unmarshal (some (Testcc.Marshal o).1) base = (o.coerced, false) := by
  have f1 : Testcc.fieldOf (lit "Id") = some .Id := by decide
  have f2 : Testcc.fieldOf (lit "ItemsId") = some .ItemsId := by decide
  have f3 : Testcc.fieldOf (lit "CustomerId") = some .CustomerId := by decide
  have f4 : Testcc.fieldOf (lit "Status") = some .Status := by decide
  have hp := parseInt_formatInt o.Id hid.1 hid.2
  simp only [Testcc.Unmarshal, Option.getD_some, parseJSON_marshal, Testcc.decodeMembers,
    f1, f2, f3, f4]
  cases hs : o.ItemsId with
  | none => simp [Testcc.storeField, hp, sliceJSON, Testcc.Order.coerced, hs]
  | some l =>
    simp [Testcc.storeField, hp, sliceJSON, Testcc.Order.coerced, hs, decodeElems_strings]

/-- The coercion leaves a string of valid UTF-8 as it is. -/
theorem validString_coerceUTF8 (s : GoString) (h : ValidString s = true) : coerceUTF8 s = s :=
  validString_coerce s.length s (le_refl _) h

/-- An order whose strings are valid UTF-8 is its own coercion. -/
theorem coerced_of_valid (o : Testcc.Order) (h : o.ValidUTF8) : o.coerced = o := by
  obtain ⟨h1, h2, h3⟩ := h
  cases o with
  | mk id items cust status =>
    simp only [Testcc.Order.coerced, validString_coerceUTF8 _ h2, validString_coerceUTF8 _ h3]
    congr
    cases items with
    | none => rfl
    | some l =>
      simp only [Option.map_some']
      congr
      have e : ∀ l : List GoString, (∀ s ∈ l, ValidString s = true) → l.map coerceUTF8 = l := by
        intro l
        induction l with
        | nil => intro _; rfl
        | cons a r ih =>
          intro h
          rw [List.map_cons, validString_coerceUTF8 a (h a (by simp)),
            ih fun s hs => h s (by simp [hs])]
      exact e l (h1 l rfl)

/-! ### Splitting and `Atoi` -/

/-- `Split` never returns the empty slice. -/
theorem split_ne_nil (s : List Nat) (sep : Nat) : Split s sep ≠ [] := by
  induction s with
  | nil => simp [Split]
  | cons b t ih =>
    unfold Split
    split
    · simp
    · split <;> simp

/-- Bytes that are not the separator, put before a string, go to its first piece. -/
theorem split_append (pre : List Nat) (sep : Nat) (hpre : ∀ y ∈ pre, y ≠ sep)
    (rest piece : List Nat) (others : List (List Nat)) (h : Split rest sep = piece :: others) :
    Split (pre ++ rest) sep = (pre ++ piece) :: others := by
  induction pre with
  | nil => simpa using h
  | cons b p ih =>
    have hb : ¬ b = sep := hpre b (by simp)
    have := ih (fun y hy => hpre y (by simp [hy]))
    simp [Split, hb, this]

/-- The empty string is valid UTF-8. -/
theorem validString_nil : ValidString [] = true := rfl

/-- A string that is not empty is valid when its first rune is and the rest is. -/
theorem validString_cons (b : Nat) (t : List Nat) :
    ValidString (b :: t)
      = (!((DecodeRune (b :: t)).1 == RuneError
            && ((b :: t).take (DecodeRune (b :: t)).2).length == 1)
          && ValidString ((b :: t).drop (DecodeRune (b :: t)).2)) := by
  simp [ValidString, runes_cons]

/-- The bytes of a rune above U+007F are all above `0x7F`. -/
theorem encodeRune_high (r : Nat) (hr : 0x80 ≤ r) : ∀ y ∈ EncodeRune r, 0x80 ≤ y := by
  intro y hy
  unfold EncodeRune at hy
  split_ifs at hy <;> simp at hy <;> omega

/-- The pieces of a string of valid UTF-8 split at the commas are valid UTF-8
(by the length of the string). -/
theorem validString_split (n : Nat) :
    ∀ (s : List Nat), s.length ≤ n → ValidString s = true →
      ∀ p ∈ Split s 0x2C, ValidString p = true := by
  induction n with
  | zero =>
    intro s hs _ p hp
    have : s = [] := List.eq_nil_of_length_eq_zero (by omega)
    subst this
    simp [Split] at hp
    subst hp; rfl
  | succ n ih =>
    intro s hs hv p hp
    cases s with
    | nil =>
      simp [Split] at hp
      subst hp; rfl
    | cons b t =>
      rw [validString_cons, Bool.and_eq_true] at hv
      obtain ⟨piece, others, hsp⟩ : ∃ piece others,
          Split ((b :: t).drop (DecodeRune (b :: t)).2) 0x2C = piece :: others := by
        cases h : Split ((b :: t).drop (DecodeRune (b :: t)).2) 0x2C with
        | nil => exact absurd h (split_ne_nil _ _)
        | cons a r => exact ⟨a, r, rfl⟩
      have hsize := decodeRune_size_pos b t
      have hrest := ih ((b :: t).drop (DecodeRune (b :: t)).2)
        (by simp only [List.length_drop, List.length_cons] at hs ⊢; omega) hv.2
      rw [hsp] at hrest
      rcases decodeRune_cases b t with ⟨h0, hd⟩ | ⟨h0, hd⟩ | ⟨h0, h2, hlen, hr, henc, hloc⟩
      · rw [hd] at hsp
        simp only [List.drop_succ_cons, List.drop_zero] at hsp
        by_cases hc : b = 0x2C
        · simp only [Split, hc, if_true, List.mem_cons] at hp
          rcases hp with hp | hp
          · subst hp; rfl
          · exact hrest p (by rw [hsp] at hp; simpa using hp)
        · simp only [Split, hc, if_false, hsp, List.mem_cons] at hp
          rcases hp with hp | hp
          · subst hp
            rw [validString_cons]
            have hdp : DecodeRune (b :: piece) = (b, 1) := by simp [DecodeRune, h0]
            have hne : ¬ b = RuneError := by simp [RuneError]; omega
            simp [hdp, hne, hrest piece (by simp)]
          · exact hrest p (by simp [hp])
      · have := hv.1
        rw [hd] at this
        simp [RuneError] at this
      · have hall : ∀ y ∈ (b :: t).take (DecodeRune (b :: t)).2, y ≠ 0x2C := by
          intro y hy
          rw [← henc] at hy
          have := encodeRune_high _ hr y hy
          omega
        have hs2 := split_append _ 0x2C hall _ piece others hsp
        rw [List.take_append_drop] at hs2
        rw [hs2, List.mem_cons] at hp
        rcases hp with hp | hp
        · subst hp
          have htake : (b :: t).take (DecodeRune (b :: t)).2
              = b :: t.take ((DecodeRune (b :: t)).2 - 1) := by
            cases hn : (DecodeRune (b :: t)).2 with
            | zero => omega
            | succ m => simp
          have hl := hloc piece
          have hlen2 : ((b :: t).take (DecodeRune (b :: t)).2).length = (DecodeRune (b :: t)).2 := by
            rw [List.length_take]; omega
          rw [htake] at hl hlen2 ⊢
          rw [List.cons_append] at hl ⊢
          rw [validString_cons, hl]
          rw [← List.cons_append, List.drop_left' hlen2, List.take_left' hlen2]
          have hne : ¬ (b :: List.take ((DecodeRune (b :: t)).2 - 1) t).length = 1 := by
            rw [hlen2]; omega
          simp [hne, hrest piece (by simp)]
          right
          refine ⟨by omega, ?_⟩
          intro ht
          subst ht
          simp only [List.length_singleton] at hlen
          omega
        · exact hrest p (by simp [hp])

/-- The pieces of a string of valid UTF-8 split at the commas are valid UTF-8. -/
theorem validString_split_comma (s : GoString) (h : ValidString s = true) :
    ∀ p ∈ Split s 0x2C, ValidString p = true :=
  validString_split s.length s (le_refl _) h

/-- The value `Atoi` returns is an `int`, with or without error. -/
theorem atoi_isInt (s : GoString) : IsInt (Atoi s).1 := by
  unfold Atoi ParseInt IsInt
  cases s with
  | nil => simp
  | cons c t =>
    simp only
    split
    · simp
    · split_ifs <;> constructor <;> simp only [] <;> omega

/-! ### Argument counts and routing -/

/-- An error whose message starts with the words of the wrong count is one. -/
theorem wrongCount_intro (stub : Stub) (tail : String) :
    WrongCount (.returned none (some (lit ("Incorrect number of arguments" ++ tail))) stub)
      stub := by
  refine ⟨_, rfl, lit tail, ?_⟩
  simp [lit]

/-- Claim C1. In both files, a call whose argument list has not the length the
addressed operation requires (`Init` 1; `write` 2 and `delete` 1 in the first
file; `submitorder` 3, `editorder` 2, `changestatus` 2 and `cancelorder` 1 in
the second; `Query` with the function `query` 1) returns no bytes and an error
that begins `Incorrect number of arguments`, and leaves the stub as it was. -/
theorem wrong_argument_count (table : Nat → Nat) (stub : Stub) (function : GoString)
    (args : List GoString) :
    (args.length ≠ 1 → WrongCount (Start.Init stub function args) stub)
    ∧ (args.length ≠ 2 → WrongCount (Start.Invoke stub (lit "write") args) stub)
    ∧ (args.length ≠ 1 → WrongCount (Start.Invoke stub (lit "delete") args) stub)
    ∧ (args.length ≠ 1 → WrongCount (Start.Query stub (lit "query") args) stub)
    ∧ (args.length ≠ 1 → WrongCount (Testcc.Init stub function args) stub)
    ∧ (args.length ≠ 3 → WrongCount (Testcc.Invoke table stub (lit "submitorder") args) stub)
    ∧ (args.length ≠ 2 → WrongCount (Testcc.Invoke table stub (lit "editorder") args) stub)
    ∧ (args.length ≠ 2 → WrongCount (Testcc.Invoke table stub (lit "changestatus") args) stub)
    ∧ (args.length ≠ 1 → WrongCount (Testcc.Invoke table stub (lit "cancelorder") args) stub)
    ∧ (args.length ≠ 1 → WrongCount (Testcc.Query stub (lit "query") args) stub) := by
  refine ⟨?_, ?_, ?_, ?_, ?_, ?_, ?_, ?_, ?_, ?_⟩ <;> intro h
  · simp only [Start.Init, if_pos h]; exact wrongCount_intro stub ". Expecting 1"
  · have e : Start.Invoke stub (lit "write") args = Start.write stub args := rfl
    rw [e]; simp only [Start.write, if_pos h]; exact wrongCount_intro stub _
  · have e : Start.Invoke stub (lit "delete") args = Start.delete stub args := rfl
    rw [e]; simp only [Start.delete, if_pos h]; exact wrongCount_intro stub _
  · have e : (lit "query" ≠ lit "query") = False := by simp
    simp only [Start.Query, e, if_false, if_pos h]; exact wrongCount_intro stub _
  · simp only [Testcc.Init, if_pos h]; exact wrongCount_intro stub ". Expecting 1"
  · have e : Testcc.Invoke table stub (lit "submitorder") args
        = Testcc.SubmitOrder stub args := rfl
    rw [e]; simp only [Testcc.SubmitOrder, if_pos h]; exact wrongCount_intro stub _
  · have e : Testcc.Invoke table stub (lit "editorder") args = Testcc.EditOrder stub args := rfl
    rw [e]; simp only [Testcc.EditOrder, if_pos h]; exact wrongCount_intro stub _
  · have e : Testcc.Invoke table stub (lit "changestatus") args
        = Testcc.ChangeStatus stub args := rfl
    rw [e]; simp only [Testcc.ChangeStatus, if_pos h]; exact wrongCount_intro stub _
  · have e : Testcc.Invoke table stub (lit "cancelorder") args
        = Testcc.CancelOrder stub args := rfl
    rw [e]; simp only [Testcc.CancelOrder, if_pos h]; exact wrongCount_intro stub _
  · have e : (lit "query" ≠ lit "query") = False := by simp
    simp only [Testcc.Query, e, if_false, if_pos h]; exact wrongCount_intro stub _

/-- The empty argument list has the wrong length for every operation. -/
theorem wrong_argument_count_witness :
    WrongCount (Start.Init (Stub.ok emptyState) [] []) (Stub.ok emptyState)
    ∧ WrongCount (Start.Invoke (Stub.ok emptyState) (lit "write") []) (Stub.ok emptyState)
    ∧ WrongCount (Testcc.Invoke (fun r => r) (Stub.ok emptyState) (lit "submitorder") [])
        (Stub.ok emptyState)
    ∧ WrongCount (Testcc.Query (Stub.ok emptyState) (lit "query") []) (Stub.ok emptyState) :=
  ⟨(wrong_argument_count (fun r => r) (Stub.ok emptyState) [] []).1 (by decide),
    (wrong_argument_count (fun r => r) (Stub.ok emptyState) [] []).2.1 (by decide),
    (wrong_argument_count (fun r => r) (Stub.ok emptyState) [] []).2.2.2.2.2.1 (by decide),
    (wrong_argument_count (fun r => r) (Stub.ok emptyState) [] []).2.2.2.2.2.2.2.2.2 (by decide)⟩

/-- Claim C2, as the code has it. A function name that `Invoke` routes to no
operation gives no bytes, the error `Received unknown function invocation: `
followed by the name, and the stub as it was; the name shown is the one the
caller passed in the first file and its lower-case form in the second. -/
theorem unknown_function (table : Nat → Nat) (stub : Stub) (function : GoString)
    (args : List GoString) :
    (function ≠ lit "delete" → function ≠ lit "write" →
      Start.Invoke stub function args
        = .returned none (some (lit "Received unknown function invocation: " ++ function)) stub)
    ∧ (ToLower table function ≠ lit "cancelorder" → ToLower table function ≠ lit "submitorder" →
        ToLower table function ≠ lit "changestatus" → ToLower table function ≠ lit "editorder" →
      Testcc.Invoke table stub function args
        = .returned none
            (some (lit "Received unknown function invocation: " ++ ToLower table function))
            stub) := by
  constructor
  · intro h1 h2
    simp only [Start.Invoke, if_neg h1, if_neg h2]
  · intro h1 h2 h3 h4
    simp only [Testcc.Invoke, if_neg h1, if_neg h2, if_neg h3, if_neg h4]

/-- The name `Foo` is unknown to both files. -/
theorem unknown_function_witness :
    Start.Invoke (Stub.ok emptyState) (lit "Foo") []
        = .returned none (some (lit "Received unknown function invocation: Foo"))
            (Stub.ok emptyState)
    ∧ Testcc.Invoke (fun r => r) (Stub.ok emptyState) (lit "Foo") []
        = .returned none (some (lit "Received unknown function invocation: foo"))
            (Stub.ok emptyState) :=
  ⟨(unknown_function (fun r => r) (Stub.ok emptyState) (lit "Foo") []).1
      (by decide) (by decide),
    (unknown_function (fun r => r) (Stub.ok emptyState) (lit "Foo") []).2
      (by decide) (by decide) (by decide) (by decide)⟩

/-- Claim C2 fails as stated: in the second file the unknown name `FOO` comes
back as `foo`, not as the caller passed it, whatever the case table. -/
theorem unknown_function_name_is_lowered :
    (∀ table : Nat → Nat,
      Testcc.Invoke table (Stub.ok emptyState) (lit "FOO") []
        = .returned none (some (lit "Received unknown function invocation: foo"))
            (Stub.ok emptyState))
    ∧ lit "Received unknown function invocation: foo"
        ≠ lit "Received unknown function invocation: " ++ lit "FOO" :=
  ⟨fun _ => rfl, by decide⟩

/-- Claim C4 fails on the code: `write` with exactly two arguments passes the
check of the count and then reads `args[2]`, so every such call panics with an
index out of range before anything is written. -/
theorem write_two_arguments_panics (stub : Stub) (id itemsCSV : GoString) :
    Start.Invoke stub (lit "write") [id, itemsCSV] = .panicked stub := rfl

/-! ### Delete and query -/

/-- Claim C7, as the code has it. When the read of the query succeeds: after a
delete of `id` that returns no error, `Query` of `id` on the stub the delete
left returns no bytes, with the error `{"Error":"Nil amount for <id>"}` in the
first file and with no error in the second; no other key has changed. -/
theorem query_after_delete (table : Nat → Nat) (stub stub1 : Stub) (id : GoString)
    (out : Option Bytes) (hget : stub.getErr id = none) :
    (Start.Invoke stub (lit "delete") [id] = .returned out none stub1 →
      Start.Query stub1 (lit "query") [id]
          = .returned none
              (some (lit "\x7b\"Error\":\"Nil amount for " ++ id ++ lit "\"\x7d")) stub1
        ∧ ∀ k, k ≠ id → stub1.state k = stub.state k)
    ∧ (Testcc.Invoke table stub (lit "cancelorder") [id] = .returned out none stub1 →
      Testcc.Query stub1 (lit "query") [id] = .returned none none stub1
        ∧ ∀ k, k ≠ id → stub1.state k = stub.state k) := by
  have e1 : Start.Invoke stub (lit "delete") [id] = Start.delete stub [id] := rfl
  have e2 : Testcc.Invoke table stub (lit "cancelorder") [id] = Testcc.CancelOrder stub [id] :=
    rfl
  have eq : (lit "query" ≠ lit "query") = False := by simp
  rw [e1, e2]
  constructor
  · intro h
    cases hd : stub.delErr id with
    | some e => simp [Start.delete, Stub.DelState, hd] at h
    | none =>
      simp only [Start.delete, Stub.DelState, hd, List.length_singleton, ne_eq,
        not_true_eq_false, if_false, List.getElem?_cons_zero, Outcome.returned.injEq,
        true_and] at h
      obtain ⟨-, rfl⟩ := h
      refine ⟨?_, fun k hk => by simp [Stub.set, hk]⟩
      simp [Start.Query, eq, Stub.GetState, Stub.set, hget]
  · intro h
    cases hd : stub.delErr id with
    | some e => simp [Testcc.CancelOrder, Stub.DelState, hd] at h
    | none =>
      simp only [Testcc.CancelOrder, Stub.DelState, hd, List.length_singleton, ne_eq,
        not_true_eq_false, if_false, List.getElem?_cons_zero, Outcome.returned.injEq,
        true_and] at h
      obtain ⟨-, rfl⟩ := h
      refine ⟨?_, fun k hk => by simp [Stub.set, hk]⟩
      simp [Testcc.Query, eq, Stub.GetState, Stub.set, hget]

/-- A delete of the stored order of the scenario, then the query. -/
theorem query_after_delete_witness :
    Start.Query (Start.Invoke (Stub.ok sampleState) (lit "delete") [lit "1"]).stub (lit "query")
        [lit "1"]
      = .returned none (some (lit "\x7b\"Error\":\"Nil amount for 1\"\x7d"))
          (Start.Invoke (Stub.ok sampleState) (lit "delete") [lit "1"]).stub :=
  ((query_after_delete (fun r => r) (Stub.ok sampleState)
      (Start.Invoke (Stub.ok sampleState) (lit "delete") [lit "1"]).stub (lit "1") none rfl).1
    rfl).1

/-- Claim C7 fails as stated: on a stub whose delete succeeds and whose read
fails, the query after the delete answers with the read failure, not with the
error of a nil value (first file) nor with an empty result (second file). -/
theorem query_after_delete_read_failure :
    (Start.Invoke unreadableStub (lit "delete") [lit "1"]).noError = true
    ∧ Start.Query (Start.Invoke unreadableStub (lit "delete") [lit "1"]).stub (lit "query")
          [lit "1"]
        = .returned none (some (lit "\x7b\"Error\":\"Failed to get state for 1\"\x7d"))
            (Start.Invoke unreadableStub (lit "delete") [lit "1"]).stub
    ∧ (Testcc.Invoke (fun r => r) unreadableStub (lit "cancelorder") [lit "1"]).noError = true
    ∧ Testcc.Query (Testcc.Invoke (fun r => r) unreadableStub (lit "cancelorder") [lit "1"]).stub
          (lit "query") [lit "1"]
        = .returned none (some (lit "\x7b\"Error\":\"Failed to get state for 1\"\x7d"))
            (Testcc.Invoke (fun r => r) unreadableStub (lit "cancelorder") [lit "1"]).stub
    ∧ lit "\x7b\"Error\":\"Failed to get state for 1\"\x7d"
        ≠ lit "\x7b\"Error\":\"Nil amount for 1\"\x7d" :=
  ⟨rfl, rfl, rfl, rfl, by decide⟩

/-- Claim C10, as the code has it. When key `id` holds bytes and the read
succeeds, `Query` returns exactly those bytes and no error, in both files; the
JSON text with the name is only printed. -/
theorem query_returns_stored_bytes (stub : Stub) (id : GoString) (bytes : Bytes)
    (hget : stub.getErr id = none) (hid : stub.state id = some bytes) :
    Start.Query stub (lit "query") [id] = .returned (some bytes) none stub
    ∧ Testcc.Query stub (lit "query") [id] = .returned (some bytes) none stub := by
  have eq : (lit "query" ≠ lit "query") = False := by simp
  constructor
  · simp [Start.Query, eq, Stub.GetState, hget, hid]
  · simp [Testcc.Query, eq, Stub.GetState, hget, hid]

/-- The query of the stored order of the scenario. -/
theorem query_returns_stored_bytes_witness :
    Start.Query (Stub.ok sampleState) (lit "query") [lit "1"]
        = .returned (some sampleOrderBytes) none (Stub.ok sampleState)
    ∧ Testcc.Query (Stub.ok sampleState) (lit "query") [lit "1"]
        = .returned (some sampleOrderBytes) none (Stub.ok sampleState) :=
  query_returns_stored_bytes (Stub.ok sampleState) (lit "1") sampleOrderBytes rfl rfl

/-- Claim C10 fails as stated: the bytes `Query` returns for the stored order
of the scenario are the stored bytes, in neither file the JSON object with the
fields `Name` and `Order` or `Customer Id`. -/
theorem query_result_is_not_the_summary :
    Start.Query (Stub.ok sampleState) (lit "query") [lit "1"]
        = .returned (some sampleOrderBytes) none (Stub.ok sampleState)
    ∧ sampleOrderBytes ≠ Start.queryResponse (lit "1") sampleOrderBytes
    ∧ Testcc.Query (Stub.ok sampleState) (lit "query") [lit "1"]
        = .returned (some sampleOrderBytes) none (Stub.ok sampleState)
    ∧ (Testcc.Unmarshal (some sampleOrderBytes) Testcc.Order.zero).1.CustomerId = lit "42"
    ∧ sampleOrderBytes ≠ Testcc.queryResponse (lit "1")
        (Testcc.Unmarshal (some sampleOrderBytes) Testcc.Order.zero).1 :=
  ⟨rfl, by decide, rfl, by decide, by decide⟩

/-! ### The second file: orders -/

/-- What `SubmitOrder` does with three arguments when the write succeeds. -/
theorem submitOrder_ok (stub : Stub) (id a1 a2 : GoString)
    (hput : ∀ k v, stub.putErr k v = none) :
    Testcc.SubmitOrder stub [id, a1, a2]
      = .returned none none (stub.set id (some (Testcc.Marshal
          { Id := (Atoi id).1, ItemsId := some (Split a1 0x2C), CustomerId := a2,
            Status := lit "Issued" }).1)) := by
  simp [Testcc.SubmitOrder, Testcc.Marshal, Stub.PutState, hput, Testcc.Order.zero]

/-- What `EditOrder` does with two arguments when the read and the write succeed. -/
theorem editOrder_ok (stub : Stub) (id a1 : GoString)
    (hput : ∀ k v, stub.putErr k v = none) (hget : stub.getErr id = none) :
    Testcc.EditOrder stub [id, a1]
      = .returned none none (stub.set id (some (Testcc.Marshal
          { (Testcc.Unmarshal (stub.state id) Testcc.Order.zero).1 with
            ItemsId := some (Split a1 0x2C) }).1)) := by
  simp [Testcc.EditOrder, Testcc.Marshal, Stub.PutState, Stub.GetState, hput, hget]

/-- What `ChangeStatus` does with two arguments when the read and the write succeed. -/
theorem changeStatus_ok (stub : Stub) (id a1 : GoString)
    (hput : ∀ k v, stub.putErr k v = none) (hget : stub.getErr id = none) :
    Testcc.ChangeStatus stub [id, a1]
      = .returned none none (stub.set id (some (Testcc.Marshal
          { (Testcc.Unmarshal (stub.state id) Testcc.Order.zero).1 with Status := a1 }).1)) := by
  simp [Testcc.ChangeStatus, Testcc.Marshal, Stub.PutState, Stub.GetState, hput, hget]

/-- What `Query` of the second file does with one argument when the read succeeds. -/
theorem query_ok (stub : Stub) (id : GoString) (hget : stub.getErr id = none) :
    Testcc.Query stub (lit "query") [id] = .returned (stub.state id) none stub := by
  have eq : (lit "query" ≠ lit "query") = False := by simp
  simp [Testcc.Query, eq, Stub.GetState, hget]

/-- Claim C3, as the code has it. In the second file, on a stub whose accessors
succeed and for an item list and a customer id that are valid UTF-8,
`submitorder` with `[id, itemsCSV, customerId]` returns no error, and `Query`
of `id` then returns, with no error, bytes that decode without error to the
order whose `ItemsId` is the split of `itemsCSV` at the commas, whose
`CustomerId` is `customerId`, whose `Status` is `Issued` and whose `Id` is what
`Atoi` made of `id`. -/
theorem submit_then_query (table : Nat → Nat) (stub : Stub) (id itemsCSV customerId : GoString)
    (hs : stub.Succeeds) (hitems : ValidString itemsCSV = true)
    (hcust : ValidString customerId = true) :
    ∃ stub1 bytes,
      Testcc.Invoke table stub (lit "submitorder") [id, itemsCSV, customerId]
          = .returned none none stub1
        ∧ Testcc.Query stub1 (lit "query") [id] = .returned (some bytes) none stub1
        ∧ Testcc.Unmarshal (some bytes) Testcc.Order.zero
          = ({ Id := (Atoi id).1, ItemsId := some (Split itemsCSV 0x2C),
               CustomerId := customerId, Status := lit "Issued" }, false) := by
  have e : Testcc.Invoke table stub (lit "submitorder") [id, itemsCSV, customerId]
      = Testcc.SubmitOrder stub [id, itemsCSV, customerId] := rfl
  refine ⟨stub.set id (some (Testcc.Marshal
      { Id := (Atoi id).1, ItemsId := some (Split itemsCSV 0x2C), CustomerId := customerId,
        Status := lit "Issued" }).1), (Testcc.Marshal
      { Id := (Atoi id).1, ItemsId := some (Split itemsCSV 0x2C), CustomerId := customerId,
        Status := lit "Issued" }).1, ?_, ?_, ?_⟩
  · rw [e, submitOrder_ok stub id itemsCSV customerId hs.1]
  · rw [query_ok (stub.set id _) id (hs.2.1 id)]
    simp [Stub.set]
  · rw [unmarshal_marshal _ _ (atoi_isInt id)]
    rw [coerced_of_valid]
    exact ⟨fun l hl s hs => by
      simp only [Option.some.injEq] at hl
      subst hl
      exact validString_split_comma itemsCSV hitems s hs, hcust,
      (by decide : ValidString (lit "Issued") = true)⟩

/-- The scenario of the specification: `submitorder` then `query`. -/
theorem submit_then_query_witness :
    ∃ stub1 bytes,
      Testcc.Invoke (fun r => r) (Stub.ok emptyState) (lit "submitorder")
          [lit "1", lit "a,b,c", lit "42"] = .returned none none stub1
        ∧ Testcc.Query stub1 (lit "query") [lit "1"] = .returned (some bytes) none stub1
        ∧ Testcc.Unmarshal (some bytes) Testcc.Order.zero
          = ({ Id := (Atoi (lit "1")).1, ItemsId := some (Split (lit "a,b,c") 0x2C),
               CustomerId := lit "42", Status := lit "Issued" }, false) :=
  submit_then_query (fun r => r) (Stub.ok emptyState) (lit "1") (lit "a,b,c") (lit "42")
    ⟨fun _ _ => rfl, fun _ => rfl, fun _ => rfl⟩ (by decide) (by decide)

/-- Claim C3 fails as stated: a customer id that is no UTF-8 (the byte `0xFF`)
is stored as the escape of U+FFFD, so the bytes the query returns decode to
the customer id U+FFFD, three other bytes. -/
theorem submit_then_query_invalid_utf8 :
    Testcc.Invoke (fun r => r) (Stub.ok emptyState) (lit "submitorder")
        [lit "1", lit "a", invalidByte]
      = .returned none none ((Stub.ok emptyState).set (lit "1") (some (lit
          "\x7b\"Id\":1,\"ItemsId\":[\"a\"],\"CustomerId\":\"\\ufffd\",\"Status\":\"Issued\"\x7d")))
    ∧ Testcc.Query ((Stub.ok emptyState).set (lit "1") (some (lit
          "\x7b\"Id\":1,\"ItemsId\":[\"a\"],\"CustomerId\":\"\\ufffd\",\"Status\":\"Issued\"\x7d")))
        (lit "query") [lit "1"]
      = .returned (some (lit
          "\x7b\"Id\":1,\"ItemsId\":[\"a\"],\"CustomerId\":\"\\ufffd\",\"Status\":\"Issued\"\x7d"))
          none ((Stub.ok emptyState).set (lit "1") (some (lit
          "\x7b\"Id\":1,\"ItemsId\":[\"a\"],\"CustomerId\":\"\\ufffd\",\"Status\":\"Issued\"\x7d")))
    ∧ (Testcc.Unmarshal (some (lit
          "\x7b\"Id\":1,\"ItemsId\":[\"a\"],\"CustomerId\":\"\\ufffd\",\"Status\":\"Issued\"\x7d"))
        Testcc.Order.zero).1.CustomerId = [0xEF, 0xBF, 0xBD]
    ∧ [0xEF, 0xBF, 0xBD] ≠ invalidByte :=
  ⟨rfl, rfl, by decide, by decide⟩

/-- Claim C5, as the code has it. In the second file, on a stub whose accessors
succeed and whose key `id` holds the encoding of an order `o` whose
`CustomerId` and `Status` are valid UTF-8 (its `ItemsId` may be anything),
`editorder` with `[id, itemsCSV]` returns no error; afterwards key `id` holds
the encoding of the order with the `Id`, `CustomerId` and `Status` of `o` and
with `ItemsId` the split of `itemsCSV` at the commas, and every other key is as
it was. -/
theorem edit_order (table : Nat → Nat) (stub : Stub) (id itemsCSV : GoString)
    (o : Testcc.Order) (hs : stub.Succeeds) (hid : IsInt o.Id)
    (hcust : ValidString o.CustomerId = true) (hstatus : ValidString o.Status = true)
    (hst : stub.state id = some (Testcc.Marshal o).1) :
    ∃ stub1,
      Testcc.Invoke table stub (lit "editorder") [id, itemsCSV] = .returned none none stub1
        ∧ stub1.state id
          = some (Testcc.Marshal { o with ItemsId := some (Split itemsCSV 0x2C) }).1
        ∧ ∀ k, k ≠ id → stub1.state k = stub.state k := by
  have e : Testcc.Invoke table stub (lit "editorder") [id, itemsCSV]
      = Testcc.EditOrder stub [id, itemsCSV] := rfl
  refine ⟨_, by rw [e, editOrder_ok stub id itemsCSV hs.1 (hs.2.1 id)], ?_,
    fun k hk => by simp [Stub.set, hk]⟩
  rw [hst, unmarshal_marshal _ _ hid]
  simp [Stub.set, Testcc.Order.coerced, validString_coerceUTF8 _ hcust,
    validString_coerceUTF8 _ hstatus]

/-- An edit of the order that `submitorder` with the item list `0xFF` stored:
the old items are no UTF-8 and the edit replaces them. -/
theorem edit_order_witness :
    ∃ stub1,
      Testcc.Invoke (fun r => r) (Stub.ok (orderState invalidItemsOrder)) (lit "editorder")
          [lit "1", lit "x,y"] = .returned none none stub1
        ∧ stub1.state (lit "1")
          = some (Testcc.Marshal
              { invalidItemsOrder with ItemsId := some (Split (lit "x,y") 0x2C) }).1
        ∧ ∀ k, k ≠ lit "1" → stub1.state k = (Stub.ok (orderState invalidItemsOrder)).state k :=
  edit_order (fun r => r) (Stub.ok (orderState invalidItemsOrder)) (lit "1") (lit "x,y")
    invalidItemsOrder ⟨fun _ _ => rfl, fun _ => rfl, fun _ => rfl⟩ ⟨by decide, by decide⟩
    (by decide) (by decide) (by decide)

/-- Claim C5 fails as stated: when key `1` holds the encoding of an order whose
customer id is the byte `0xFF`, the bytes under the key after `editorder` have
U+FFFD itself where the encoding of an order with that customer id has the
escape: they are not the encoding of the order with the fields of `o`. The same
holds for an order whose status is the byte `0xFF`. -/
theorem edit_order_invalid_utf8 :
    (Testcc.Invoke (fun r => r) (Stub.ok invalidState) (lit "editorder")
        [lit "1", lit "x"]).noError = true
    ∧ (Testcc.Invoke (fun r => r) (Stub.ok invalidState) (lit "editorder")
        [lit "1", lit "x"]).stub.state (lit "1")
      = some (lit "\x7b\"Id\":1,\"ItemsId\":[\"x\"],\"CustomerId\":\"" ++ [0xEF, 0xBF, 0xBD]
          ++ lit "\",\"Status\":\"Issued\"\x7d")
    ∧ (Testcc.Marshal { invalidOrder with ItemsId := some (Split (lit "x") 0x2C) }).1
      = lit "\x7b\"Id\":1,\"ItemsId\":[\"x\"],\"CustomerId\":\"\\ufffd\",\"Status\":\"Issued\"\x7d"
    ∧ lit "\x7b\"Id\":1,\"ItemsId\":[\"x\"],\"CustomerId\":\"" ++ [0xEF, 0xBF, 0xBD]
          ++ lit "\",\"Status\":\"Issued\"\x7d"
      ≠ lit "\x7b\"Id\":1,\"ItemsId\":[\"x\"],\"CustomerId\":\"\\ufffd\",\"Status\":\"Issued\"\x7d"
    ∧ (Testcc.Invoke (fun r => r) (Stub.ok (orderState invalidStatusOrder)) (lit "editorder")
        [lit "1", lit "x"]).noError = true
    ∧ (Testcc.Invoke (fun r => r) (Stub.ok (orderState invalidStatusOrder)) (lit "editorder")
        [lit "1", lit "x"]).stub.state (lit "1")
      ≠ some (Testcc.Marshal
          { invalidStatusOrder with ItemsId := some (Split (lit "x") 0x2C) }).1 :=
  ⟨rfl, by decide, by decide, by decide, rfl, by decide⟩

/-- Claim C6, as the code has it. In the second file, on a stub whose accessors
succeed and whose key `id` holds the encoding of an order `o` whose items and
`CustomerId` are valid UTF-8 (its old `Status` may be anything), `changestatus`
with `[id, newStatus]`, for any `newStatus` that is valid UTF-8, returns no
error; `Query` of `id` then returns bytes that decode without error to the
order with `Status` equal to `newStatus` and the `Id`, `ItemsId` and
`CustomerId` of `o`; every other key is as it was. -/
theorem change_status (table : Nat → Nat) (stub : Stub) (id newStatus : GoString)
    (o : Testcc.Order) (hs : stub.Succeeds) (hid : IsInt o.Id)
    (hitems : ∀ l, o.ItemsId = some l → ∀ s ∈ l, ValidString s = true)
    (hcust : ValidString o.CustomerId = true)
    (hnew : ValidString newStatus = true) (hst : stub.state id = some (Testcc.Marshal o).1) :
    ∃ stub1 bytes,
      Testcc.Invoke table stub (lit "changestatus") [id, newStatus] = .returned none none stub1
        ∧ Testcc.Query stub1 (lit "query") [id] = .returned (some bytes) none stub1
        ∧ Testcc.Unmarshal (some bytes) Testcc.Order.zero
          = ({ o with Status := newStatus }, false)
        ∧ ∀ k, k ≠ id → stub1.state k = stub.state k := by
  have e : Testcc.Invoke table stub (lit "changestatus") [id, newStatus]
      = Testcc.ChangeStatus stub [id, newStatus] := rfl
  have hv : Testcc.Order.ValidUTF8 { o with Status := newStatus } := ⟨hitems, hcust, hnew⟩
  have hc : ({ o.coerced with Status := newStatus } : Testcc.Order)
      = { o with Status := newStatus } := by
    have h := coerced_of_valid _ hv
    simp only [Testcc.Order.coerced, Testcc.Order.mk.injEq] at h ⊢
    exact ⟨h.1, h.2.1, h.2.2.1, trivial⟩
  refine ⟨stub.set id (some (Testcc.Marshal { o with Status := newStatus }).1),
    (Testcc.Marshal { o with Status := newStatus }).1, ?_, ?_, ?_,
    fun k hk => by simp [Stub.set, hk]⟩
  · rw [e, changeStatus_ok stub id newStatus hs.1 (hs.2.1 id), hst,
      unmarshal_marshal _ _ hid]
    simp only
    rw [hc]
  · rw [query_ok (stub.set id _) id (hs.2.1 id)]
    simp [Stub.set]
  · rw [unmarshal_marshal { o with Status := newStatus } _ hid, coerced_of_valid _ hv]

/-- A change of the status of the order that `changestatus` with the status
`0xFF` left: the old status is no UTF-8 and the call replaces it. -/
theorem change_status_witness :
    ∃ stub1 bytes,
      Testcc.Invoke (fun r => r) (Stub.ok (orderState invalidStatusOrder)) (lit "changestatus")
          [lit "1", lit "Shipped"] = .returned none none stub1
        ∧ Testcc.Query stub1 (lit "query") [lit "1"] = .returned (some bytes) none stub1
        ∧ Testcc.Unmarshal (some bytes) Testcc.Order.zero
          = ({ invalidStatusOrder with Status := lit "Shipped" }, false)
        ∧ ∀ k, k ≠ lit "1" →
            stub1.state k = (Stub.ok (orderState invalidStatusOrder)).state k :=
  change_status (fun r => r) (Stub.ok (orderState invalidStatusOrder)) (lit "1")
    (lit "Shipped") invalidStatusOrder ⟨fun _ _ => rfl, fun _ => rfl, fun _ => rfl⟩
    ⟨by decide, by decide⟩
    (fun l hl s hs => by
      simp only [invalidStatusOrder, Option.some.injEq] at hl
      subst hl
      revert s; decide)
    (by decide) (by decide) (by decide)

/-- Claim C6 fails as stated: a new status that is no UTF-8 (the byte `0xFF`) is
stored as the escape of U+FFFD, and the bytes the query returns decode to the
status U+FFFD, not to the status passed. In the same way, when the stored
order has a customer id or an item that is no UTF-8, the bytes the query
returns after `changestatus` decode to U+FFFD in its place, not to the
`CustomerId` or the `ItemsId` of `o`. -/
theorem change_status_invalid_utf8 :
    (Testcc.Invoke (fun r => r) (Stub.ok sampleState) (lit "changestatus")
        [lit "1", invalidByte]).noError = true
    ∧ Testcc.Query (Testcc.Invoke (fun r => r) (Stub.ok sampleState) (lit "changestatus")
          [lit "1", invalidByte]).stub (lit "query") [lit "1"]
      = .returned (some (lit
          "\x7b\"Id\":1,\"ItemsId\":[\"a\",\"b\",\"c\"],\"CustomerId\":\"42\",\"Status\":\"\\ufffd\"\x7d"))
          none (Testcc.Invoke (fun r => r) (Stub.ok sampleState) (lit "changestatus")
          [lit "1", invalidByte]).stub
    ∧ (Testcc.Unmarshal (some (lit
          "\x7b\"Id\":1,\"ItemsId\":[\"a\",\"b\",\"c\"],\"CustomerId\":\"42\",\"Status\":\"\\ufffd\"\x7d"))
        Testcc.Order.zero).1.Status = [0xEF, 0xBF, 0xBD]
    ∧ [0xEF, 0xBF, 0xBD] ≠ invalidByte
    ∧ (Testcc.Invoke (fun r => r) (Stub.ok invalidState) (lit "changestatus")
        [lit "1", lit "Shipped"]).noError = true
    ∧ Testcc.Query (Testcc.Invoke (fun r => r) (Stub.ok invalidState) (lit "changestatus")
          [lit "1", lit "Shipped"]).stub (lit "query") [lit "1"]
      = .returned (some (lit
          "\x7b\"Id\":1,\"ItemsId\":[\"a\"],\"CustomerId\":\"" ++ [0xEF, 0xBF, 0xBD]
            ++ lit "\",\"Status\":\"Shipped\"\x7d"))
          none (Testcc.Invoke (fun r => r) (Stub.ok invalidState) (lit "changestatus")
          [lit "1", lit "Shipped"]).stub
    ∧ (Testcc.Unmarshal (some (lit
          "\x7b\"Id\":1,\"ItemsId\":[\"a\"],\"CustomerId\":\"" ++ [0xEF, 0xBF, 0xBD]
            ++ lit "\",\"Status\":\"Shipped\"\x7d"))
        Testcc.Order.zero).1.CustomerId = [0xEF, 0xBF, 0xBD]
    ∧ [0xEF, 0xBF, 0xBD] ≠ invalidOrder.CustomerId
    ∧ (Testcc.Invoke (fun r => r) (Stub.ok (orderState invalidItemsOrder)) (lit "changestatus")
        [lit "1", lit "Shipped"]).noError = true
    ∧ Testcc.Query (Testcc.Invoke (fun r => r) (Stub.ok (orderState invalidItemsOrder))
          (lit "changestatus") [lit "1", lit "Shipped"]).stub (lit "query") [lit "1"]
      = .returned (some (lit "\x7b\"Id\":1,\"ItemsId\":[\"" ++ [0xEF, 0xBF, 0xBD]
            ++ lit "\"],\"CustomerId\":\"42\",\"Status\":\"Shipped\"\x7d"))
          none (Testcc.Invoke (fun r => r) (Stub.ok (orderState invalidItemsOrder))
          (lit "changestatus") [lit "1", lit "Shipped"]).stub
    ∧ (Testcc.Unmarshal (some (lit "\x7b\"Id\":1,\"ItemsId\":[\"" ++ [0xEF, 0xBF, 0xBD]
            ++ lit "\"],\"CustomerId\":\"42\",\"Status\":\"Shipped\"\x7d"))
        Testcc.Order.zero).1.ItemsId = some [[0xEF, 0xBF, 0xBD]]
    ∧ some [[0xEF, 0xBF, 0xBD]] ≠ invalidItemsOrder.ItemsId :=
  ⟨rfl, rfl, by decide, by decide, rfl, rfl, by decide, by decide, rfl, rfl, by decide,
    by decide⟩

/-- Claim C8, as the code has it. For the `Order` of the second file and every
order whose strings are valid UTF-8, the encoder has no error and decoding the
bytes it wrote gives, with no error, the order itself, whatever the order
decoded into held before. -/
theorem order_round_trip (o base : Testcc.Order) (hid : IsInt o.Id) (hv : o.ValidUTF8) :
    (Testcc.Marshal o).2 = none
      ∧ Testcc.Unmarshal (some (Testcc.Marshal o).1) base = (o, false) := by
  refine ⟨rfl, ?_⟩
  rw [unmarshal_marshal _ _ hid, coerced_of_valid o hv]

/-- The order of the scenario comes back from its encoding. -/
theorem order_round_trip_witness :
    (Testcc.Marshal sampleOrder).2 = none
      ∧ Testcc.Unmarshal (some (Testcc.Marshal sampleOrder).1) Testcc.Order.zero
        = (sampleOrder, false) :=
  order_round_trip sampleOrder Testcc.Order.zero ⟨by decide, by decide⟩
    ⟨fun l hl s hs => by
      simp only [sampleOrder, Option.some.injEq] at hl
      subst hl
      revert s; decide, by decide, by decide⟩

/-- Claim C8 fails as stated. In the first file the fields of `Order` are
unexported, the encoding of every order is `{}` and decoding it leaves the zero
order; in the second file a string that is no UTF-8 comes back as U+FFFD. -/
theorem order_round_trip_fails :
    (Start.Marshal sampleStartOrder).1 = lit "\x7b\x7d"
    ∧ Start.Unmarshal (some (Start.Marshal sampleStartOrder).1) Start.Order.zero
      = (Start.Order.zero, false)
    ∧ Start.Order.zero ≠ sampleStartOrder
    ∧ (Testcc.Unmarshal (some (Testcc.Marshal invalidOrder).1) Testcc.Order.zero).1.CustomerId
      = [0xEF, 0xBF, 0xBD]
    ∧ [0xEF, 0xBF, 0xBD] ≠ invalidOrder.CustomerId :=
  ⟨rfl, by decide, by decide, by decide, by decide⟩

/-! ### The second file: keys and ids -/

/-- Two orders with the same encoding have the same `Id`. -/
theorem marshal_id_inj (o1 o2 : Testcc.Order) (h1 : IsInt o1.Id) (h2 : IsInt o2.Id)
    (h : (Testcc.Marshal o1).1 = (Testcc.Marshal o2).1) : o1.Id = o2.Id := by
  have e1 := unmarshal_marshal o1 Testcc.Order.zero h1
  have e2 := unmarshal_marshal o2 Testcc.Order.zero h2
  rw [h, e2] at e1
  have := congrArg (fun p => p.1.Id) e1
  simpa [Testcc.Order.coerced] using this.symm

/-- The stub after `CancelOrder`: as before, or with one key deleted. -/
theorem cancelOrder_stub (stub : Stub) (args : List GoString) :
    (Testcc.CancelOrder stub args).stub = stub
      ∨ ∃ key, (Testcc.CancelOrder stub args).stub = stub.set key none := by
  rcases args with _ | ⟨a, _ | ⟨b, rest⟩⟩
  · left; rfl
  · cases h : stub.delErr a with
    | none => right; exact ⟨a, by simp [Testcc.CancelOrder, Stub.DelState, h, Outcome.stub]⟩
    | some e => left; simp [Testcc.CancelOrder, Stub.DelState, h, Outcome.stub]
  · left; simp [Testcc.CancelOrder, Outcome.stub]

/-- The stub after `SubmitOrder`: as before, or with the new order under its id. -/
theorem submitOrder_stub (stub : Stub) (args : List GoString) :
    (Testcc.SubmitOrder stub args).stub = stub
      ∨ ∃ id a1 a2, args = [id, a1, a2]
          ∧ (Testcc.SubmitOrder stub args).stub = stub.set id (some (Testcc.Marshal
              { Id := (Atoi id).1, ItemsId := some (Split a1 0x2C), CustomerId := a2,
                Status := lit "Issued" }).1) := by
  rcases args with _ | ⟨a, _ | ⟨b, _ | ⟨c, _ | ⟨d, rest⟩⟩⟩⟩
  · left; rfl
  · left; simp [Testcc.SubmitOrder, Outcome.stub]
  · left; simp [Testcc.SubmitOrder, Outcome.stub]
  · cases h : stub.putErr a (Testcc.Marshal
        { Id := (Atoi a).1, ItemsId := some (Split b 0x2C), CustomerId := c,
          Status := lit "Issued" }).1 with
    | none =>
      right
      refine ⟨a, b, c, rfl, ?_⟩
      simp only [Testcc.Marshal, List.append_assoc] at h
      simp [Testcc.SubmitOrder, Testcc.Marshal, Stub.PutState, h, Outcome.stub,
        Testcc.Order.zero]
    | some e =>
      left
      simp only [Testcc.Marshal, List.append_assoc] at h
      simp [Testcc.SubmitOrder, Testcc.Marshal, Stub.PutState, h, Outcome.stub,
        Testcc.Order.zero]
  · left; simp [Testcc.SubmitOrder, Outcome.stub]

/-- The stub after `EditOrder`: as before, or with the edited order under its id. -/
theorem editOrder_stub (stub : Stub) (args : List GoString) :
    (Testcc.EditOrder stub args).stub = stub
      ∨ ∃ id a1, args = [id, a1]
          ∧ (Testcc.EditOrder stub args).stub = stub.set id (some (Testcc.Marshal
              { (Testcc.Unmarshal (stub.state id) Testcc.Order.zero).1 with
                ItemsId := some (Split a1 0x2C) }).1) := by
  rcases args with _ | ⟨a, _ | ⟨b, _ | ⟨c, rest⟩⟩⟩
  · left; rfl
  · left; simp [Testcc.EditOrder, Outcome.stub]
  · cases hg : stub.getErr a with
    | some e => left; simp [Testcc.EditOrder, Stub.GetState, hg, Outcome.stub]
    | none =>
      cases h : stub.putErr a (Testcc.Marshal
          { (Testcc.Unmarshal (stub.state a) Testcc.Order.zero).1 with
            ItemsId := some (Split b 0x2C) }).1 with
      | none =>
        right
        refine ⟨a, b, rfl, ?_⟩
        simp only [Testcc.Marshal, List.append_assoc] at h
        simp [Testcc.EditOrder, Testcc.Marshal, Stub.PutState, Stub.GetState, hg, h,
          Outcome.stub]
      | some e =>
        left
        simp only [Testcc.Marshal, List.append_assoc] at h
        simp [Testcc.EditOrder, Testcc.Marshal, Stub.PutState, Stub.GetState, hg, h,
          Outcome.stub]
  · left; simp [Testcc.EditOrder, Outcome.stub]

/-- The stub after `ChangeStatus`: as before, or with the changed order under its id. -/
theorem changeStatus_stub (stub : Stub) (args : List GoString) :
    (Testcc.ChangeStatus stub args).stub = stub
      ∨ ∃ id a1, args = [id, a1]
          ∧ (Testcc.ChangeStatus stub args).stub = stub.set id (some (Testcc.Marshal
              { (Testcc.Unmarshal (stub.state id) Testcc.Order.zero).1 with
                Status := a1 }).1) := by
  rcases args with _ | ⟨a, _ | ⟨b, _ | ⟨c, rest⟩⟩⟩
  · left; rfl
  · left; simp [Testcc.ChangeStatus, Outcome.stub]
  · cases hg : stub.getErr a with
    | some e => left; simp [Testcc.ChangeStatus, Stub.GetState, hg, Outcome.stub]
    | none =>
      cases h : stub.putErr a (Testcc.Marshal
          { (Testcc.Unmarshal (stub.state a) Testcc.Order.zero).1 with Status := b }).1 with
      | none =>
        right
        refine ⟨a, b, rfl, ?_⟩
        simp only [Testcc.Marshal, List.append_assoc] at h
        simp [Testcc.ChangeStatus, Testcc.Marshal, Stub.PutState, Stub.GetState, hg, h,
          Outcome.stub]
      | some e =>
        left
        simp only [Testcc.Marshal, List.append_assoc] at h
        simp [Testcc.ChangeStatus, Testcc.Marshal, Stub.PutState, Stub.GetState, hg, h,
          Outcome.stub]
  · left; simp [Testcc.ChangeStatus, Outcome.stub]

/-- The keys go on matching the ids when one key gets a value that matches it. -/
theorem set_state_inv (stub : Stub) (key : GoString) (v : Bytes)
    (ih : ∀ k (o : Testcc.Order), IsInt o.Id → stub.state k = some (Testcc.Marshal o).1 →
      Atoi k = (o.Id, none))
    (hkey : ∀ o : Testcc.Order, IsInt o.Id → v = (Testcc.Marshal o).1 → Atoi key = (o.Id, none)) :
    ∀ k (o : Testcc.Order), IsInt o.Id → (stub.set key (some v)).state k = some (Testcc.Marshal o).1 →
      Atoi k = (o.Id, none) := by
  intro k o hid h
  by_cases hk : k = key
  · subst hk
    simp only [Stub.set, if_true, Option.some.injEq] at h
    exact hkey o hid h
  · simp only [Stub.set, if_neg hk] at h
    exact ih k o hid h

/-- Claim C9, as the code has it. In the second file, start from a ledger that
holds no order and make any calls of `Invoke`, with any arguments, in which
every `submitorder` with three arguments has an id that `Atoi` reads without
error and every `editorder` or `changestatus` with two arguments addresses a
key that holds the encoding of an order. Then every key `k` whose value is the
encoding of an order `o` is read by `Atoi`, without error, as `o.Id`. -/
theorem keys_match_ids (table : Nat → Nat) (stub : Stub) (hr : Reachable table stub) :
    ∀ k (o : Testcc.Order), IsInt o.Id → stub.state k = some (Testcc.Marshal o).1 →
      Atoi k = (o.Id, none) := by
  induction hr with
  | start stub h => intro k o hid hst; exact absurd hst (h k o hid)
  | invoke stub function args hr ha ih =>
    unfold Testcc.Invoke
    by_cases h1 : ToLower table function = lit "cancelorder"
    · rw [if_pos h1]
      rcases cancelOrder_stub stub args with e | ⟨key, e⟩
      · rw [e]; exact ih
      · rw [e]
        intro k o hid h
        by_cases hk : k = key
        · simp [Stub.set, hk] at h
        · simp only [Stub.set, if_neg hk] at h
          exact ih k o hid h
    · rw [if_neg h1]
      by_cases h2 : ToLower table function = lit "submitorder"
      · rw [if_pos h2]
        rcases submitOrder_stub stub args with e | ⟨id, a1, a2, hargs, e⟩
        · rw [e]; exact ih
        · rw [e]
          apply set_state_inv stub id _ ih
          intro o hid hm
          have hatoi := ha.1 h2 (by rw [hargs]; rfl) id (by rw [hargs]; rfl)
          have := marshal_id_inj _ o (atoi_isInt id) hid hm
          simp only at this
          rw [← this]
          exact Prod.ext rfl hatoi
      · rw [if_neg h2]
        by_cases h3 : ToLower table function = lit "changestatus"
        · rw [if_pos h3]
          rcases changeStatus_stub stub args with e | ⟨id, a1, hargs, e⟩
          · rw [e]; exact ih
          · rw [e]
            obtain ⟨o0, hid0, hst0⟩ := ha.2 (Or.inr h3) (by rw [hargs]; rfl) id (by rw [hargs]; rfl)
            apply set_state_inv stub id _ ih
            intro o hid hm
            rw [hst0, unmarshal_marshal _ _ hid0] at hm
            have := marshal_id_inj { o0.coerced with Status := a1 } o hid0 hid hm
            simp only [Testcc.Order.coerced] at this
            rw [← this]
            exact ih id o0 hid0 hst0
        · rw [if_neg h3]
          by_cases h4 : ToLower table function = lit "editorder"
          · rw [if_pos h4]
            rcases editOrder_stub stub args with e | ⟨id, a1, hargs, e⟩
            · rw [e]; exact ih
            · rw [e]
              obtain ⟨o0, hid0, hst0⟩ := ha.2 (Or.inl h4) (by rw [hargs]; rfl) id
                (by rw [hargs]; rfl)
              apply set_state_inv stub id _ ih
              intro o hid hm
              rw [hst0, unmarshal_marshal _ _ hid0] at hm
              have := marshal_id_inj { o0.coerced with ItemsId := some (Split a1 0x2C) } o
                hid0 hid hm
              simp only [Testcc.Order.coerced] at this
              rw [← this]
              exact ih id o0 hid0 hst0
          · rw [if_neg h4]
            exact ih

/-- After `submitorder` of the id `007` on the empty ledger, the key `007`
holds the order of id 7, and `Atoi` reads the key as 7. -/
theorem keys_match_ids_witness : Atoi (lit "007") = (7, none) :=
  keys_match_ids (fun r => r)
    (Testcc.Invoke (fun r => r) (Stub.ok emptyState) (lit "submitorder")
      [lit "007", lit "a", lit "c"]).stub
    (Reachable.invoke (Stub.ok emptyState) (lit "submitorder") [lit "007", lit "a", lit "c"]
      (Reachable.start (Stub.ok emptyState) (fun _ _ _ h => by simp [Stub.ok, emptyState] at h))
      ⟨fun _ _ id hid => by
          simp only [List.getElem?_cons_zero, Option.some.injEq] at hid
          subst hid
          decide,
        fun h => by
          exfalso
          revert h
          decide⟩)
    (lit "007")
    { Id := 7, ItemsId := some [lit "a"], CustomerId := lit "c", Status := lit "Issued" }
    ⟨by decide, by decide⟩ (by decide)

/-- Claim C9 fails as stated: after `submitorder` of the id `007` on the empty
ledger, the key `007` holds the encoding of the order of id 7, whose decimal
form is `7`, not the key. -/
theorem key_is_not_the_decimal_id :
    (Testcc.Invoke (fun r => r) (Stub.ok emptyState) (lit "submitorder")
        [lit "007", lit "a", lit "c"]).stub.state (lit "007")
      = some (Testcc.Marshal
          { Id := 7, ItemsId := some [lit "a"], CustomerId := lit "c",
            Status := lit "Issued" }).1
    ∧ FormatInt 7 = lit "7"
    ∧ lit "007" ≠ FormatInt 7 :=
  ⟨by decide, by decide, by decide⟩

end Chaincode
